import Mathlib

/-!
Verification of the Super-Brain RAG patch (super_brain_rag_patch.js and the
revised patch script) against its specification.

The JavaScript patch is shallowly embedded below.  Duck-typed collaborators of
the patched CognitiveRetriever class (tokenize, extractEntities, chunkLookup,
mergeUniqueChunks, semanticRerank, ...) live in the base chatbot script and are
modelled as optional injected functions, exactly mirroring the
"typeof this.f === 'function'" guards of the patch; the fallback branches of
those guards are the patch's own code and are embedded verbatim.  JavaScript
numbers are modelled as exact rationals, strings as Lean strings (the corpora
involved are ASCII), and a base-retriever call that may throw is modelled as a
function into Except Unit.
-/

unseal Rat.mul Rat.add Rat.ofScientific Rat.sub Nat.gcd

set_option maxRecDepth 4000

namespace SuperBrain

/-! ### Generic helpers: the shared uniqBy dedup and a stable sort

JavaScript Array.prototype.sort with a consistent comparator is specified to be
a stable sort; a stable sort with respect to a total comparator is unique, so
the structurally recursive insertion sort below is an exact model. -/

/-- Model of the shared uniqBy helper: walks the list, skips items whose key is
null/undefined (modelled as none), keeps the first item for each key. -/
def uniqByAux {α κ : Type} [DecidableEq κ] (keyFn : α → Option κ) (seen : List κ) : List α → List α
  | [] => []
  | x :: xs =>
    match keyFn x with
    | none => uniqByAux keyFn seen xs
    | some k => if k ∈ seen then uniqByAux keyFn seen xs else x :: uniqByAux keyFn (k :: seen) xs

/-- uniqBy(items, keyFn) from the patch script. -/
def uniqBy {α κ : Type} [DecidableEq κ] (items : List α) (keyFn : α → Option κ) : List α :=
  uniqByAux keyFn [] items

/-- A JavaScript Set built by inserting the elements of a list in order:
insertion-ordered distinct values. -/
def jsSet {α : Type} [DecidableEq α] (l : List α) : List α :=
  uniqBy l (fun x => some x)

/-- Insert x into a sorted list, after every element y with le y x
(so that ties keep their original relative order). -/
def insertTailBy {α : Type} (le : α → α → Bool) (x : α) : List α → List α
  | [] => [x]
  | y :: ys => if le y x then y :: insertTailBy le x ys else x :: y :: ys

/-- Stable sort with respect to the boolean comparator le: the model of
Array.prototype.sort with comparator c where le a b means c(a,b) <= 0. -/
def sortBy {α : Type} (le : α → α → Bool) (l : List α) : List α :=
  l.foldl (fun acc x => insertTailBy le x acc) []

/-- First-match association lookup: the model of Map.prototype.get. -/
def assocGet {κ β : Type} [DecidableEq κ] : List (κ × β) → κ → Option β
  | [], _ => none
  | p :: rest, k => if p.1 = k then some p.2 else assocGet rest k

/-- Update-in-place-or-append: the model of Map.prototype.set, which keeps the
original insertion position of an existing key. -/
def assocSet {κ β : Type} [DecidableEq κ] : List (κ × β) → κ → β → List (κ × β)
  | [], k, v => [(k, v)]
  | p :: rest, k, v => if p.1 = k then (k, v) :: rest else p :: assocSet rest k v

/-! ### Character and string machinery

All string manipulation is done over List Char with structural recursion so
that concrete runs reduce inside the kernel.  JavaScript regex constructs used
by the patch (word boundaries, alternation, bounded tails, global scans) are
implemented as explicit scanners. -/

/-- JavaScript word character (the regex class backslash-w, ASCII). -/
def isWordChar (c : Char) : Bool := c.isAlphanum || c = '_'

/-- JavaScript whitespace for the regex class backslash-s (ASCII fragment). -/
def isWsChar (c : Char) : Bool := c.isWhitespace

/-- Lowercasing a character list (String.prototype.toLowerCase, ASCII). -/
def lowerChars (l : List Char) : List Char := l.map Char.toLower

/-- safeLower from the patch script: String(text or '').toLowerCase(). -/
def jsLower (s : String) : String := String.mk (lowerChars s.data)

/-- Leading/trailing whitespace removal over a character list. -/
def trimChars (l : List Char) : List Char :=
  ((l.dropWhile isWsChar).reverse.dropWhile isWsChar).reverse

/-- String.prototype.trim. -/
def jsTrim (s : String) : String := String.mk (trimChars s.data)

/-- replace(/\s+/g, ' '): each maximal whitespace run becomes one space.
The flag records whether the previous character was whitespace. -/
def collapseWsAux (prevWs : Bool) : List Char → List Char
  | [] => []
  | c :: rest =>
    if isWsChar c then
      (if prevWs then [] else [' ']) ++ collapseWsAux true rest
    else c :: collapseWsAux false rest

/-- String(v).replace(/\s+/g, ' '). -/
def collapseWs (s : String) : String := String.mk (collapseWsAux false s.data)

/-- The ubiquitous String(v).replace(/\s+/g, ' ').trim() cleanup. -/
def cleanWs (s : String) : String := jsTrim (collapseWs s)

/-- replace(/[^\w\s-]/g, ' '): strip every character that is not a word
character, whitespace or hyphen. -/
def stripNonWordChars (l : List Char) : List Char :=
  l.map (fun c => if isWordChar c || isWsChar c || c = '-' then c else ' ')

/-- normalizeConcept from the patch script:
trim, lowercase, strip punctuation, collapse whitespace, trim. -/
def normalizeConcept (s : String) : String :=
  jsTrim (String.mk (collapseWsAux false (stripNonWordChars (lowerChars (trimChars s.data)))))

/-- Whitespace-separated fields; the accumulator holds the current (reversed)
field. Models String(x).split(/\s+/).filter(Boolean). -/
def fieldsAux : List Char → List Char → List (List Char)
  | acc, [] => if acc.isEmpty then [] else [acc.reverse]
  | acc, c :: rest =>
    if isWsChar c then
      (if acc.isEmpty then fieldsAux [] rest else acc.reverse :: fieldsAux [] rest)
    else fieldsAux (c :: acc) rest

/-- split(/\s+/).filter(Boolean) on a string. -/
def jsWords (s : String) : List String := (fieldsAux [] s.data).map String.mk

/-- Does the second list start with the first? -/
def listStarts {α : Type} [DecidableEq α] : List α → List α → Bool
  | [], _ => true
  | _ :: _, [] => false
  | p :: ps, c :: cs => p = c && listStarts ps cs

/-- Regex word boundary to the left of position i. -/
def wordBoundaryBefore (s : List Char) (i : Nat) : Bool :=
  i = 0 || !isWordChar (s.getD (i - 1) ' ')

/-- Regex word boundary to the right of position j (j past the last matched
character). -/
def wordBoundaryAfter (s : List Char) (j : Nat) : Bool :=
  s.length ≤ j || !isWordChar (s.getD j ' ')

/-- Regex alternation at position i followed by a word boundary: the first
alternative (in source order) that matches at i and admits the boundary,
mirroring the backtracking of (a1|a2|...) followed by the boundary. -/
def altMatchAt (s : List Char) (i : Nat) (alts : List (List Char)) : Option (List Char) :=
  alts.find? (fun kw => listStarts kw (s.drop i) && wordBoundaryAfter s (i + kw.length))

/-- Is there a boundary-delimited match of one of the alternatives starting at
position i? -/
def hasWordAltAt (s : List Char) (i : Nat) (alts : List (List Char)) : Bool :=
  wordBoundaryBefore s i && (altMatchAt s i alts).isSome

/-- Case-insensitive test of a word-bounded alternation against a string:
the model of every pattern of shape backslash-b(a1|a2|...)backslash-b with
flag i used via .test(...). -/
def jsTestWordAlt (text : String) (alts : List String) : Bool :=
  let s := lowerChars text.data
  let altsL := alts.map (fun a => lowerChars a.data)
  (List.range (s.length + 1)).any (fun i => hasWordAltAt s i altsL)

/-- Number of global matches of a word-bounded alternation.  Both boundaries
contain only word characters, so matches cannot overlap and the global match
count equals the number of admissible start positions. -/
def countWordAlt (text : List Char) (alts : List (List Char)) : Nat :=
  ((List.range (text.length + 1)).filter (fun i => hasWordAltAt text i alts)).length

/-- Length of the greedy run of at most maxLen characters outside stops
starting at position j: the tail [^stops]{0,maxLen} of the intent-graph
patterns. -/
def tailSpanLen (s : List Char) (j : Nat) (stops : List Char) (maxLen : Nat) : Nat :=
  min ((s.drop j).takeWhile (fun c => !stops.contains c)).length maxLen

/-- Global scanner for patterns of shape
backslash-b(alts)backslash-b[^stops]{0,80} with flags g and i; matching is
done on the lowered text and the matched substrings are sliced from the
original text.  After a match the scan resumes at its end, otherwise at the
next position.  The fuel starts at length+1 and strictly dominates the scan
position, so it never runs out. -/
def scanKwTailAux (orig low : List Char) (alts : List (List Char)) (stops : List Char) :
    Nat → Nat → List String
  | _, 0 => []
  | i, fuel + 1 =>
    if low.length ≤ i then []
    else if wordBoundaryBefore low i then
      match altMatchAt low i alts with
      | some kw =>
        let len := kw.length + tailSpanLen low (i + kw.length) stops 80
        String.mk ((orig.drop i).take len) :: scanKwTailAux orig low alts stops (i + len) fuel
      | none => scanKwTailAux orig low alts stops (i + 1) fuel
    else scanKwTailAux orig low alts stops (i + 1) fuel

/-- text.match(/\b(alts)\b[^.?!;]{0,80}/gi) or [] — the list of matched
substrings. -/
def jsMatchKwTail (text : String) (alts : List String) : List String :=
  scanKwTailAux text.data (lowerChars text.data) (alts.map (fun a => lowerChars a.data))
    ['.', '?', '!', ';'] 0 (text.data.length + 1)

/-- One capitalized word [A-Z][a-z]+ at position i: its length, if present
(lowercase run taken greedily). -/
def capWordLen (s : List Char) (i : Nat) : Option Nat :=
  match s.drop i with
  | [] => none
  | c :: rest =>
    if c.isUpper then
      let r := (rest.takeWhile Char.isLower).length
      if r = 0 then none else some (1 + r)
    else none

/-- Length of a whitespace run at position i. -/
def wsRunLen (s : List Char) (i : Nat) : Nat := ((s.drop i).takeWhile isWsChar).length

/-- One repetition \s+[A-Z][a-z]+ at position i: its length, if present. -/
def sepWordLen (s : List Char) (i : Nat) : Option Nat :=
  let w := wsRunLen s i
  if w = 0 then none
  else
    match capWordLen s (i + w) with
    | some u => some (w + u)
    | none => none

/-- Match length of /[A-Z][a-z]+(?:\s+[A-Z][a-z]+){0,2}\b/ at position i:
greedy repetition count with backtracking into the trailing word boundary
(two repetitions tried first, then one, then zero). -/
def capPhraseLenAt (s : List Char) (i : Nat) : Option Nat :=
  match capWordLen s i with
  | none => none
  | some w0 =>
    match sepWordLen s (i + w0) with
    | some l1 =>
      match sepWordLen s (i + w0 + l1) with
      | some l2 =>
        if wordBoundaryAfter s (i + w0 + l1 + l2) then some (w0 + l1 + l2)
        else if wordBoundaryAfter s (i + w0 + l1) then some (w0 + l1)
        else if wordBoundaryAfter s (i + w0) then some w0
        else none
      | none =>
        if wordBoundaryAfter s (i + w0 + l1) then some (w0 + l1)
        else if wordBoundaryAfter s (i + w0) then some (w0)
        else none
    | none => if wordBoundaryAfter s (i + w0) then some (w0) else none

/-- Global scanner for /\b[A-Z][a-z]+(?:\s+[A-Z][a-z]+){0,2}\b/g. -/
def capScanAux (s : List Char) : Nat → Nat → List String
  | _, 0 => []
  | i, fuel + 1 =>
    if s.length ≤ i then []
    else if wordBoundaryBefore s i then
      match capPhraseLenAt s i with
      | some len => String.mk ((s.drop i).take len) :: capScanAux s (i + len) fuel
      | none => capScanAux s (i + 1) fuel
    else capScanAux s (i + 1) fuel

/-- The capitalized-phrase matches of extractRichConcepts. -/
def capPhrases (s : List Char) : List String := capScanAux s 0 (s.length + 1)

/-- Global scanner for /"([^"]{3,90})"/g: at an opening quote, the greedy
non-quote run must have length 3..90 and be followed by a closing quote;
full matches (with quotes) are returned, as by String.prototype.match. -/
def quotedScanAux (s : List Char) : Nat → Nat → List String
  | _, 0 => []
  | i, fuel + 1 =>
    if s.length ≤ i then []
    else if s.getD i ' ' = '\"' then
      let run := ((s.drop (i + 1)).takeWhile (fun c => c ≠ '\"')).length
      if 3 ≤ run ∧ run ≤ 90 ∧ i + 1 + run < s.length then
        String.mk ((s.drop i).take (run + 2)) :: quotedScanAux s (i + run + 2) fuel
      else quotedScanAux s (i + 1) fuel
    else quotedScanAux s (i + 1) fuel

/-- The quoted-substring matches of extractRichConcepts. -/
def quotedSpans (s : List Char) : List String := quotedScanAux s 0 (s.length + 1)

/-- Greedy group list for (?:[-_][a-z0-9]+)+ starting at position i
(flag i, so the classes are case-insensitive): lengths of the consumed
separator+run groups. -/
def techGroupsAux (s : List Char) : Nat → Nat → List Nat
  | _, 0 => []
  | i, fuel + 1 =>
    let c := s.getD i ' '
    if (c = '-' || c = '_') && i < s.length then
      let r := ((s.drop (i + 1)).takeWhile Char.isAlphanum).length
      if r = 0 then [] else (1 + r) :: techGroupsAux s (i + 1 + r) fuel
    else []

/-- Longest prefix of the greedy group list whose end admits the trailing word
boundary (the regex backtracks by giving up whole groups; giving back single
characters never helps because every group character is a word character).
Returns the total length of the kept groups. -/
def pickGroups (s : List Char) : Nat → List Nat → Option Nat
  | _, [] => none
  | pos, g :: gs =>
    match pickGroups s (pos + g) gs with
    | some rest => some (g + rest)
    | none => if wordBoundaryAfter s (pos + g) then some g else none

/-- Match length of /[a-z]+(?:[-_][a-z0-9]+)+\b/i at position i. -/
def techLenAt (s : List Char) (i : Nat) : Option Nat :=
  let a := ((s.drop i).takeWhile Char.isAlpha).length
  if a = 0 then none
  else
    match pickGroups s (i + a) (techGroupsAux s (i + a) (s.length + 1)) with
    | some g => some (a + g)
    | none => none

/-- Global scanner for /\b[a-z]+(?:[-_][a-z0-9]+)+\b/gi. -/
def techScanAux (s : List Char) : Nat → Nat → List String
  | _, 0 => []
  | i, fuel + 1 =>
    if s.length ≤ i then []
    else if wordBoundaryBefore s i then
      match techLenAt s i with
      | some len => String.mk ((s.drop i).take len) :: techScanAux s (i + len) fuel
      | none => techScanAux s (i + 1) fuel
    else techScanAux s (i + 1) fuel

/-- The technical-token matches of extractRichConcepts. -/
def techTokens (s : List Char) : List String := techScanAux s 0 (s.length + 1)

/-- join(sep). -/
def strJoin (sep : String) : List String → String
  | [] => ""
  | [x] => x
  | x :: rest => x ++ sep ++ strJoin sep rest

/-! ### Data model -/

/-- Query-intent flags; a fresh JavaScript object literal has every flag
absent, i.e. falsy. -/
structure Intent where
  broadCoverage : Bool := false
  comparative : Bool := false
  timeline : Bool := false
deriving DecidableEq

/-- A retrieval chunk.  id and filename keep their possibly-absent nature as
options because the patch distinguishes missing keys from present ones;
index, page and score are only ever read through falsy-coalescing (x or 0,
x or 'na', x or 0.2), so 0 faithfully plays the role of an absent value. -/
structure Chunk where
  id : Option String := none
  filename : Option String := none
  index : Nat := 0
  page : Nat := 0
  text : String := ""
  score : ℚ := 0
  bridgeConcept : Option String := none
  adversarialSignal : Option ℚ := none
  adversarialProbe : Option String := none
deriving DecidableEq

/-- A corpus document: filename plus its chunk list. -/
structure Document where
  filename : Option String := none
  chunks : List Chunk := []
deriving DecidableEq

/-- One conversation-history entry (window.app.synthesizer.conversationHistory). -/
structure HistItem where
  role : String := ""
  content : String := ""

/-- A predictive-retrieval hypothesis (htype embeds the source field "type"). -/
structure PredictiveHypothesis where
  htype : String
  statement : String
  confidence : ℚ
  nonFactualPrior : Bool
deriving DecidableEq

/-- The fixed weighting priors of the predictive model. -/
structure WeightingPriors where
  authority : String
  recency : String
  contextualRelevance : String
deriving DecidableEq

/-- superBrainBuildPredictiveModel's result. -/
structure PredictiveModel where
  query : String
  anticipatedConclusion : String
  hypotheses : List PredictiveHypothesis
  expectedEvidenceNeeds : List String
  weightingPriors : WeightingPriors
deriving DecidableEq

/-- The options bag passed to retrieve; the patch reads only options.intent and
options.predictiveModel, every other key is passed through opaquely. -/
structure RetrievalOptions where
  intent : Option Intent := none
  predictiveModel : Option PredictiveModel := none

/-- The type of the underlying base retriever (original CognitiveRetriever
retrieve): it may throw, modelled by Except. -/
def BaseRetrieve : Type := String → Nat → RetrievalOptions → Except Unit (List Chunk)

/-- The patched CognitiveRetriever state.  The first block is the corpus data
and the concept-graph artifacts; every Option-of-function field is a
duck-typed collaborator defined by the base chatbot script, absent exactly
when the corresponding "typeof this.f === 'function'" guard fails. -/
structure Retriever where
  allChunks : List Chunk := []
  documents : List Document := []
  chunkLookup : Option (List (Option String × Chunk)) := none
  superConceptGraph : List (String × List (String × ℚ)) := []
  conceptToChunkIds : List (String × List (Option String)) := []
  chunkConceptsCache : Option (List (Option String × List String)) := none
  conversationHistory : List HistItem := []
  tokenizeFn : Option (String → List String) := none
  extractEntitiesFn : Option (String → List String) := none
  extractConceptsFn : Option (String → List String) := none
  calculateRelevanceScoreFn : Option (Chunk → String → List String → List String → List String → ℚ) := none
  pickEvenlyDistributedFn : Option (List Chunk → Nat → List Chunk) := none
  mergeUniqueChunksFn : Option (List Chunk → List Chunk → Nat → List Chunk) := none
  detectQueryIntentFn : Option (String → Intent) := none
  shouldUseSemanticRerankFn : Option (Intent → List Chunk → Nat → Bool) := none
  semanticRerankFn : Option (String → List Chunk → Nat → Intent → List Chunk) := none
  diversifyResultsFn : Option (List Chunk → Nat → List Chunk) := none

/-! ### Constants of the patch scripts -/

def FULL_SWEEP_MIN_ANCHORS_PER_DOC : Nat := 2
def DEFAULT_TARGET_K_SMALL : Nat := 22
def DEFAULT_TARGET_K_MEDIUM : Nat := 30
def DEFAULT_TARGET_K_LARGE : Nat := 42
def MAX_MERGED_MULTIPLIER : Nat := 3
def MAX_LINK_EXPANSION : Nat := 28
def MAX_RETRIEVAL_REFINEMENT_PASSES : Nat := 4
def RETRIEVAL_STABLE_CHUNK_DELTA : Nat := 3
def MODEL_GAP_THRESHOLD : Nat := 6
def MIN_CROSS_SOURCE_DOCS : Nat := 2
def MAX_ADVERSARIAL_RETRIEVAL_PASSES : Nat := 3
def MAX_ADVERSARIAL_CHUNKS : Nat := 16
def MAX_PREDICTIVE_HYPOTHESES : Nat := 5

/-! ### Small JavaScript-semantics helpers -/

/-- x or fallback on numbers (0 is falsy). -/
def jsOrQ (v fallback : ℚ) : ℚ := if v = 0 then fallback else v

/-- x or fallback on naturals (0 is falsy). -/
def jsOrN (v fallback : Nat) : Nat := if v = 0 then fallback else v

/-- Truthiness of a possibly-absent string (undefined and '' are falsy). -/
def truthyStr : Option String → Bool
  | none => false
  | some s => !s.data.isEmpty

/-- (x or 0) on a possibly-absent number. -/
def jsOrZ : Option ℚ → ℚ
  | none => 0
  | some v => v

/-- item.filename kept only when truthy: models
.map(item => item.filename).filter(Boolean) elementwise. -/
def truthyFilename (c : Chunk) : Option String :=
  match c.filename with
  | some s => if s.data.isEmpty then none else some s
  | none => none

/-- Comparator (a, b) => b.score - a.score as a precedence test: a may come
before b iff b.score <= a.score. -/
def descScoreLe (a b : Chunk) : Bool := decide (b.score ≤ a.score)

/-- Comparator (a, b) => (a.index or 0) - (b.index or 0). -/
def ascIndexLe (a b : Chunk) : Bool := decide (a.index ≤ b.index)

/-- this.calculateRelevanceScore if present, else 0 (the patch's fallback). -/
def relScore (r : Retriever) (c : Chunk) (q : String) (tokens entities concepts : List String) : ℚ :=
  match r.calculateRelevanceScoreFn with
  | some f => f c q tokens entities concepts
  | none => 0

/-- this.tokenize if present, else normalizeConcept(q).split(/\s+/).filter(Boolean). -/
def tokensOf (r : Retriever) (q : String) : List String :=
  match r.tokenizeFn with
  | some f => f q
  | none => jsWords (normalizeConcept q)

/-- this.extractEntities if present, else []. -/
def entitiesOf (r : Retriever) (q : String) : List String :=
  match r.extractEntitiesFn with
  | some f => f q
  | none => []

/-- this.extractConcepts if present, else []. -/
def conceptsOf (r : Retriever) (q : String) : List String :=
  match r.extractConceptsFn with
  | some f => f q
  | none => []

/-- this.chunkLookup?.get(k). -/
def chunkLookupGet (r : Retriever) (k : Option String) : Option Chunk :=
  match r.chunkLookup with
  | none => none
  | some m => assocGet m k

/-! ### Keyword lists of the regex literals -/

def referenceKeywords : List String :=
  ["it", "this", "that", "those", "these", "they", "them", "previous",
   "same one", "compare it", "what about"]

def broadOrDecisionKeywords : List String :=
  ["overall", "across", "entire", "comprehensive", "compare", "contrast",
   "decision", "recommend", "trade-off", "tradeoff"]

def broadQuestionKeywords : List String :=
  ["overall", "across", "entire", "comprehensive", "strategy", "decision",
   "recommend", "trade-off", "tradeoff"]

def constraintAlts : List String :=
  ["must", "cannot", "only", "required", "unless", "except", "without",
   "at least", "at most"]

def relationAlts : List String :=
  ["cause", "impact", "depends on", "related to", "trade-off", "trade off",
   "tradeoff", "compare", "versus", "vs"]

def unknownAlts : List String :=
  ["uncertain", "unknown", "missing", "need", "evidence", "prove", "validate"]

def exceptionKeywords : List String :=
  ["late", "deadline", "exception", "override", "appeal", "special case"]

def hierarchyKeywords : List String :=
  ["policy", "manual", "guideline", "rule", "regulation", "procedure"]

/-- The twelve contradiction-marker patterns of
superBrainContradictionSignalScore, each expanded into its alternation
variants in regex backtracking order. -/
def contradictionPatterns : List (List String) :=
  [["however"], ["but"], ["except"], ["unless"], ["although"], ["despite"],
   ["limitation", "limited", "limits", "limit"],
   ["constraints", "constraint"],
   ["risks", "risk"],
   ["counterexample", "counterevidence", "counter"],
   ["contradicts", "contradiction", "contradictory", "contradict"],
   ["failure", "fails", "failed", "failing", "fail"]]

/-! ### extractRichConcepts -/

/-- Set.prototype.add on an insertion-ordered string set. -/
def addUniqueStr (acc : List String) (v : String) : List String :=
  if v ∈ acc then acc else acc ++ [v]

/-- extractRichConcepts(text): capitalized phrases, quoted substrings,
technical tokens and the top frequent tokens, normalized, deduplicated in
insertion order, capped at 28. -/
def extractRichConcepts (r : Retriever) (text : String) : List String :=
  if text.data.isEmpty then []
  else
    let acc := (capPhrases text.data).foldl (fun a phrase =>
      let v := normalizeConcept phrase
      if 3 ≤ v.length then addUniqueStr a v else a) []
    let acc := (quotedSpans text.data).foldl (fun a q =>
      let v := normalizeConcept (String.mk (q.data.filter (fun c => c ≠ '\"')))
      if 3 ≤ v.length then addUniqueStr a v else a) acc
    let acc := (techTokens text.data).foldl (fun a t =>
      let v := normalizeConcept t
      if 3 ≤ v.length then addUniqueStr a v else a) acc
    let tokens := tokensOf r text
    let freq := tokens.foldl (fun m tok =>
      if tok.length < 4 then m else assocSet m tok ((assocGet m tok).getD 0 + 1))
      ([] : List (String × Nat))
    let top := ((sortBy (fun a b => decide (b.2 ≤ a.2)) (freq.filter (fun p => 2 ≤ p.2))).take 18).map Prod.fst
    (top.foldl addUniqueStr acc).take 28

/-! ### getDocumentAnchors -/

/-- The per-document body of the getDocumentAnchors loop: top-scoring chunks
plus evenly distributed chunks of one document. -/
def anchorsForDoc (r : Retriever) (query : String) (intent : Intent)
    (tokens entities concepts : List String) (doc : Document) : List Chunk :=
  let chunks := doc.chunks.map (fun c =>
    match r.chunkLookup with
    | none => c
    | some m => (assocGet m c.id).getD c)
  if chunks.isEmpty then []
  else
    let scored := sortBy descScoreLe (chunks.map (fun c =>
      { c with score := relScore r c query tokens entities concepts }))
    let topRelevantCount := if intent.broadCoverage then 2 else 1
    let ordered := sortBy ascIndexLe chunks
    let coverageCount := max FULL_SWEEP_MIN_ANCHORS_PER_DOC (if intent.broadCoverage then 3 else 2)
    let distributed :=
      match r.pickEvenlyDistributedFn with
      | some f => f ordered coverageCount
      | none => ordered.take coverageCount
    scored.take topRelevantCount ++ distributed

/-- getDocumentAnchors(query, intent): per-document anchors deduplicated by id. -/
def getDocumentAnchors (r : Retriever) (query : String) (intent : Intent) : List Chunk :=
  if r.documents.isEmpty then []
  else
    let tokens := tokensOf r query
    let entities := entitiesOf r query
    let concepts := conceptsOf r query
    uniqBy (r.documents.foldl
      (fun acc doc => acc ++ anchorsForDoc r query intent tokens entities concepts doc) [])
      Chunk.id

/-! ### expandImplicitConceptLinks -/

/-- this.chunkConceptsCache?.get(chunk.id) or this.extractRichConcepts(chunk.text)
(an empty cached list is truthy and is used as-is). -/
def seedConceptsOf (r : Retriever) (c : Chunk) : List String :=
  match r.chunkConceptsCache with
  | some cache =>
    match assocGet cache c.id with
    | some l => l
    | none => extractRichConcepts r c.text
  | none => extractRichConcepts r c.text

/-- candidateConcepts.set(k, Math.max(candidateConcepts.get(k) or 0, w)). -/
def setJsMax (m : List (String × ℚ)) (k : String) (w : ℚ) : List (String × ℚ) :=
  assocSet m k (max ((assocGet m k).getD 0) w)

/-- The chunk candidates contributed by one candidate concept: its indexed
chunk ids, seeds excluded, resolved through chunkLookup and scored by
0.72 * lexical + 0.08 * min(bridgeWeight, 5). -/
def bridgeCandidatesFor (r : Retriever) (query : String) (qt qe qc : List String)
    (seedIds : List (Option String)) (entry : String × ℚ) : List Chunk :=
  match assocGet r.conceptToChunkIds entry.1 with
  | none => []
  | some chunkIds =>
    chunkIds.filterMap (fun cid =>
      if cid ∈ seedIds then none
      else
        match chunkLookupGet r cid with
        | none => none
        | some c => some { c with
            score := relScore r c query qt qe qc * 0.72 + min entry.2 5 * 0.08,
            bridgeConcept := some entry.1 })

/-- expandImplicitConceptLinks(seedChunks, query, limit): one-hop concept walk
from the seeds' weighted top concepts, returning scored non-seed chunks. -/
def expandImplicitConceptLinks (r : Retriever) (seedChunks : List Chunk) (query : String)
    (limit : Nat) : List Chunk :=
  if r.superConceptGraph.isEmpty || r.conceptToChunkIds.isEmpty || seedChunks.isEmpty then []
  else
    let qt := tokensOf r query
    let qe := entitiesOf r query
    let qc := conceptsOf r query
    let seedIds := seedChunks.map Chunk.id
    let seedConceptWeight := seedChunks.foldl (fun m c =>
      let base := jsOrQ c.score 0.2 + 0.25
      (seedConceptsOf r c).foldl
        (fun m2 concept => assocSet m2 concept ((assocGet m2 concept).getD 0 + base)) m)
      ([] : List (String × ℚ))
    let topSeedConcepts := (sortBy (fun a b => decide (b.2 ≤ a.2)) seedConceptWeight).take 14
    let candidateConcepts := topSeedConcepts.foldl (fun m entry =>
      let m1 := setJsMax m entry.1 entry.2
      match assocGet r.superConceptGraph entry.1 with
      | none => m1
      | some neighbors =>
        ((sortBy (fun a b => decide (b.2 ≤ a.2)) neighbors).take 5).foldl
          (fun m2 nb => setJsMax m2 nb.1 (entry.2 * 0.65 + nb.2 * 0.35)) m1)
      ([] : List (String × ℚ))
    let candidates := candidateConcepts.foldl
      (fun acc entry => acc ++ bridgeCandidatesFor r query qt qe qc seedIds entry) []
    (uniqBy (sortBy descScoreLe candidates) Chunk.id).take limit

/-! ### enforceDocumentCoverage -/

/-- (topK or currentLength): the cap re-evaluated with the current length. -/
def jsCapAt (topK len : Nat) : Nat := if topK = 0 then len else topK

/-- First anchor loop of enforceDocumentCoverage: add anchors of unseen
documents, stopping when the output or the seen-document set is full. -/
def coverLoop1 (topK targetDocs : Nat) :
    List Chunk → List Chunk → List (Option String) → List Chunk × List (Option String)
  | [], out, seen => (out, seen)
  | a :: rest, out, seen =>
    if jsCapAt topK out.length ≤ out.length then (out, seen)
    else if a.filename ∈ seen then coverLoop1 topK targetDocs rest out seen
    else
      let out2 := out ++ [a]
      let seen2 := seen ++ [a.filename]
      if targetDocs ≤ seen2.length then (out2, seen2)
      else coverLoop1 topK targetDocs rest out2 seen2

/-- Second anchor loop of enforceDocumentCoverage: top up with any anchor whose
id is not yet present. -/
def coverLoop2 (topK : Nat) : List Chunk → List Chunk → List Chunk
  | [], out => out
  | a :: rest, out =>
    if jsCapAt topK out.length ≤ out.length then out
    else if out.any (fun c => c.id == a.id) then coverLoop2 topK rest out
    else coverLoop2 topK rest (out ++ [a])

/-- enforceDocumentCoverage(results, anchors, topK). -/
def enforceDocumentCoverage (r : Retriever) (results anchors : List Chunk) (topK : Nat) :
    List Chunk :=
  let out := uniqBy results Chunk.id
  let seenDocs := jsSet (out.map Chunk.filename)
  let targetDocs := min r.documents.length (max 1 ((7 * jsOrN topK (jsOrN out.length 1) + 9) / 10))
  let p := coverLoop1 topK targetDocs anchors out seenDocs
  let out2 := coverLoop2 topK anchors p.1
  out2.take (jsCapAt topK out2.length)

/-! ### superBrainResolveQueryFromSession -/

/-- superBrainResolveQueryFromSession(query): append a continuity hint from the
most recent non-empty user turn when the query contains a reference word. -/
def superBrainResolveQueryFromSession (r : Retriever) (query : String) : String :=
  let raw := jsTrim query
  if raw.data.isEmpty then raw
  else if !jsTestWordAlt raw referenceKeywords then raw
  else if r.conversationHistory.isEmpty then raw
  else
    match r.conversationHistory.reverse.find?
      (fun item => item.role == "user" && !(jsTrim item.content).data.isEmpty) with
    | none => raw
    | some recentUser =>
      let hint := String.mk ((cleanWs recentUser.content).data.take 240)
      if hint.data.isEmpty then raw
      else raw ++ "\n\n[Continuity hint from prior user turn: " ++ hint ++ "]"

/-! ### superBrainBuildIntentGraph and probe queries -/

/-- The per-query intent graph. -/
structure IntentGraph where
  raw : String
  entities : List String
  concepts : List String
  constraints : List String
  relations : List String
  unknowns : List String
deriving DecidableEq

/-- superBrainBuildIntentGraph(query). -/
def superBrainBuildIntentGraph (r : Retriever) (query : String) : IntentGraph :=
  let normalized := cleanWs query
  { raw := normalized
    entities := (entitiesOf r normalized).take 20
    concepts := (conceptsOf r normalized).take 24
    constraints := (jsMatchKwTail normalized constraintAlts).take 10
    relations := (jsMatchKwTail normalized relationAlts).take 10
    unknowns := (jsMatchKwTail normalized unknownAlts).take 10 }

/-- The push helper of the probe builders: clean the value, keep it when
non-empty. -/
def pushProbe (probes : List String) (v : String) : List String :=
  let cleaned := cleanWs v
  if cleaned.data.isEmpty then probes else probes ++ [cleaned]

/-- superBrainBuildProbeQueries(query, intentGraph, intent) of
super_brain_rag_patch.js: intent-driven probe variants, deduplicated by
normalized form, capped at 2 * MAX_RETRIEVAL_REFINEMENT_PASSES. -/
def superBrainBuildProbeQueries (r : Retriever) (query : String)
    (intentGraphOpt : Option IntentGraph) (intent : Intent) : List String :=
  let graph := intentGraphOpt.getD (superBrainBuildIntentGraph r query)
  let probes := pushProbe [] (query ++ " semantic evidence relationships constraints")
  let probes := if !graph.entities.isEmpty then
      pushProbe probes (query ++ " " ++ strJoin " " (graph.entities.take 4) ++ " evidence across documents")
    else probes
  let probes := if !graph.concepts.isEmpty then
      pushProbe probes (query ++ " " ++ strJoin " " (graph.concepts.take 5) ++ " implicit links")
    else probes
  let probes := if !graph.constraints.isEmpty then
      pushProbe probes (query ++ " constraints exceptions conflicts")
    else probes
  let probes := if !graph.relations.isEmpty || intent.comparative then
      pushProbe probes (query ++ " compare trade-offs and dependencies")
    else probes
  let probes := if intent.timeline then
      pushProbe probes (query ++ " chronology sequence and milestones")
    else probes
  let probes := if !graph.unknowns.isEmpty then
      pushProbe probes (query ++ " missing evidence validation")
    else probes
  (uniqBy probes (fun p => some (normalizeConcept p))).take (MAX_RETRIEVAL_REFINEMENT_PASSES * 2)

/-! ### superBrainDeepScanAugment -/

/-- The mid/late/last candidates of one document, scored and sorted. -/
def deepScanCandidates (r : Retriever) (query : String) (qt qe qc : List String)
    (filename : String) : List Chunk :=
  let docChunks := sortBy ascIndexLe (r.allChunks.filter (fun c => c.filename == some filename))
  if docChunks.length < 4 then []
  else
    let picks := [docChunks.get? (docChunks.length / 2),
                  docChunks.get? (4 * docChunks.length / 5),
                  docChunks.get? (docChunks.length - 1)].filterMap id
    sortBy descScoreLe (picks.map (fun c =>
      { c with score := relScore r c query qt qe qc }))

/-- Inner candidate loop of superBrainDeepScanAugment. -/
def deepScanInner (targetTopK : Nat) :
    List Chunk → List Chunk → List (Option String) → List Chunk × List (Option String)
  | [], out, seen => (out, seen)
  | c :: rest, out, seen =>
    if targetTopK ≤ out.length then (out, seen)
    else if !truthyStr c.id || c.id ∈ seen then deepScanInner targetTopK rest out seen
    else deepScanInner targetTopK rest (out ++ [c]) (seen ++ [c.id])

/-- Outer document loop of superBrainDeepScanAugment. -/
def deepScanDocsLoop (r : Retriever) (query : String) (qt qe qc : List String)
    (targetTopK : Nat) : List String → List Chunk → List (Option String) → List Chunk
  | [], out, _ => out
  | fname :: rest, out, seen =>
    let p := deepScanInner targetTopK (deepScanCandidates r query qt qe qc fname) out seen
    if targetTopK ≤ p.1.length then p.1
    else deepScanDocsLoop r query qt qe qc targetTopK rest p.1 p.2

/-- superBrainDeepScanAugment(query, selectedChunks, targetTopK): top up the
selection with unseen mid/late/last chunks of the already-covered documents. -/
def superBrainDeepScanAugment (r : Retriever) (query : String) (selectedChunks : List Chunk)
    (targetTopK : Nat) : List Chunk :=
  let out := selectedChunks
  let seen := out.map Chunk.id
  let docNames := uniqBy (out.filterMap truthyFilename) (fun s => some s)
  if docNames.isEmpty then out
  else
    let qt := tokensOf r query
    let qe := entitiesOf r query
    let qc := conceptsOf r query
    (deepScanDocsLoop r query qt qe qc targetTopK docNames out seen).take targetTopK

/-! ### superBrainRunRetrievalRefinement -/

/-- The mutable locals of the refinement loop. -/
structure RefineState where
  merged : List Chunk
  passes : Nat
  stableHits : Nat
  prevChunkCount : Nat
  prevDocCount : Nat
deriving DecidableEq

/-- The merge of one probe's base result, anchors and links: nested capped
mergeUniqueChunks when the base class provides it, otherwise the patch's
single uniqBy fallback. -/
def refineProbeMerge (r : Retriever) (passBase anchors links : List Chunk) (topK : Nat) :
    List Chunk :=
  match r.mergeUniqueChunksFn with
  | some m => m (m passBase anchors (max (topK * 2) 90)) links (max (topK * 3) 120)
  | none => uniqBy (passBase ++ anchors ++ links) Chunk.id

/-- Merging one probe's result into the accumulated set. -/
def refineAccMerge (r : Retriever) (merged mergedProbe : List Chunk) (topK : Nat) : List Chunk :=
  match r.mergeUniqueChunksFn with
  | some m => m merged mergedProbe (max (topK * 4) 170)
  | none => uniqBy (merged ++ mergedProbe) Chunk.id

/-- The accumulated set after processing one probe: base retrieval (errors
recovered to []), anchors, bridge links, merged into the running set. -/
def refineStepMerged (r : Retriever) (topK : Nat) (options : RetrievalOptions) (intent : Intent)
    (origF : BaseRetrieve) (probe : String) (merged0 : List Chunk) : List Chunk :=
  let passBase :=
    match origF probe (max 18 ((4 * topK + 4) / 5))
      { options with intent := some { intent with broadCoverage := true } } with
    | Except.ok l => l
    | Except.error _ => []
  let anchors := getDocumentAnchors r probe { intent with broadCoverage := true }
  let links := expandImplicitConceptLinks r passBase probe (max 8 (4 * MAX_LINK_EXPANSION / 5))
  refineAccMerge r merged0 (refineProbeMerge r passBase anchors links topK) topK

/-- One iteration of the refinement loop body: merge the probe's results and
update the stability bookkeeping. -/
def refineStep (r : Retriever) (topK : Nat) (options : RetrievalOptions) (intent : Intent)
    (origF : BaseRetrieve) (probe : String) (st : RefineState) : RefineState :=
  let merged := refineStepMerged r topK options intent origF probe st.merged
  let chunkCount := merged.length
  let docCount := (jsSet (merged.map Chunk.filename)).length
  let chunkDelta : Int := (chunkCount : Int) - (st.prevChunkCount : Int)
  let docDelta : Int := (docCount : Int) - (st.prevDocCount : Int)
  let stableHits :=
    if docDelta ≤ 0 ∧ chunkDelta ≤ (RETRIEVAL_STABLE_CHUNK_DELTA : Int) then st.stableHits + 1
    else 0
  { merged := merged, passes := st.passes + 1, stableHits := stableHits,
    prevChunkCount := chunkCount, prevDocCount := docCount }

/-- The probe loop: stop at the pass budget, or right after a stable pass. -/
def refineLoop (r : Retriever) (topK : Nat) (options : RetrievalOptions) (intent : Intent)
    (origF : BaseRetrieve) : List String → RefineState → RefineState
  | [], st => st
  | probe :: rest, st =>
    if MAX_RETRIEVAL_REFINEMENT_PASSES ≤ st.passes then st
    else
      let st2 := refineStep r topK options intent origF probe st
      if 1 ≤ st2.stableHits then st2
      else refineLoop r topK options intent origF rest st2

/-- superBrainRunRetrievalRefinement's result record. -/
structure RefinementResult where
  chunks : List Chunk
  passes : Nat
  stabilized : Bool
  intentGraph : IntentGraph
deriving DecidableEq

/-- superBrainRunRetrievalRefinement(query, seedChunks, topK, options, intent,
originalRetrieve) of super_brain_rag_patch.js. -/
def superBrainRunRetrievalRefinement (r : Retriever) (query : String) (seedChunks : List Chunk)
    (topK : Nat) (options : RetrievalOptions) (intent : Intent)
    (originalRetrieve : Option BaseRetrieve) : RefinementResult :=
  match originalRetrieve with
  | none =>
    { chunks := seedChunks, passes := 1, stabilized := true,
      intentGraph := superBrainBuildIntentGraph r query }
  | some f =>
    let intentGraph := superBrainBuildIntentGraph r query
    let probes := superBrainBuildProbeQueries r query (some intentGraph) intent
    let st0 : RefineState :=
      { merged := seedChunks, passes := 1, stableHits := 0,
        prevChunkCount := seedChunks.length,
        prevDocCount := (jsSet (seedChunks.map Chunk.filename)).length }
    let stF := refineLoop r topK options intent f probes st0
    { chunks := stF.merged, passes := stF.passes, stabilized := decide (1 ≤ stF.stableHits),
      intentGraph := intentGraph }

/-! ### patchedRetrieve -/

/-- The non-rerank ranking branch: sort by score descending, then diversify or
slice to the target size. -/
def rankFallback (r : Retriever) (merged : List Chunk) (targetTopK : Nat) : List Chunk :=
  let sorted := sortBy descScoreLe merged
  match r.diversifyResultsFn with
  | some d => d sorted targetTopK
  | none => sorted.take targetTopK

/-- The duck-typed mergeUniqueChunks collaborator with the source's
uniqBy-on-id fallback for an absent base class. -/
def mergeU (r : Retriever) (a b : List Chunk) (n : Nat) : List Chunk :=
  match r.mergeUniqueChunksFn with
  | some m => m a b n
  | none => uniqBy (a ++ b) Chunk.id

/-- The ranking stage of patchedRetrieve: semantic rerank when the heuristic
and the collaborator allow it (falling back to the merged set when the rerank
returns nothing), otherwise score-sorted diversify/take. -/
def rankSelect (r : Retriever) (q : String) (intent : Intent) (merged2 : List Chunk)
    (targetTopK : Nat) : List Chunk :=
  let useRerank :=
    (match r.shouldUseSemanticRerankFn with
     | some s => s intent merged2 targetTopK
     | none => false) && r.semanticRerankFn.isSome
  if useRerank then
    match r.semanticRerankFn with
    | some f =>
      let semantic := f q merged2 targetTopK intent
      if semantic.isEmpty then merged2 else semantic
    | none => rankFallback r merged2 targetTopK
  else rankFallback r merged2 targetTopK

/-- The cross-source anchor injection loop at the end of patchedRetrieve. -/
def crossInjectLoop (targetTopK requiredDocs : Nat) :
    List Chunk → List Chunk → List String → List Chunk
  | [], out, _ => out
  | a :: rest, out, currentDocs =>
    if targetTopK ≤ out.length then out
    else if !truthyStr a.id || out.any (fun c => c.id == a.id) then
      crossInjectLoop targetTopK requiredDocs rest out currentDocs
    else if currentDocs.length < requiredDocs &&
        (match a.filename with | some s => decide (s ∈ currentDocs) | none => false) then
      crossInjectLoop targetTopK requiredDocs rest out currentDocs
    else
      let out2 := out ++ [a]
      let docs2 :=
        match a.filename with
        | some s => if s.data.isEmpty then currentDocs
                    else if s ∈ currentDocs then currentDocs else currentDocs ++ [s]
        | none => currentDocs
      crossInjectLoop targetTopK requiredDocs rest out2 docs2

/-- The query actually used by the patched retrieve. -/
def patchedQuery (r : Retriever) (query : String) : String :=
  superBrainResolveQueryFromSession r query

/-- The forced-broad intent of the patched retrieve. -/
def patchedIntent (r : Retriever) (query : String) (options : RetrievalOptions) : Intent :=
  let baseIntent :=
    match options.intent with
    | some i => i
    | none =>
      match r.detectQueryIntentFn with
      | some f => f query
      | none => {}
  { baseIntent with broadCoverage := true }

/-- The effective top-K of the patched retrieve. -/
def patchedTargetTopK (r : Retriever) (topK : Option Nat) : Nat :=
  topK.getD
    (if r.allChunks.length ≤ 60 then DEFAULT_TARGET_K_SMALL
     else if r.allChunks.length ≤ 240 then DEFAULT_TARGET_K_MEDIUM
     else DEFAULT_TARGET_K_LARGE)

/-- The body of patchedRetrieve after the successful base retrieval call
(query is the caller's original query, still used by the broad-question
test; retrievalQuery is the session-resolved one). -/
def patchedTail (r : Retriever) (query retrievalQuery : String) (intent : Intent)
    (targetTopK : Nat) (options : RetrievalOptions) (origF : BaseRetrieve)
    (base : List Chunk) : List Chunk :=
  let anchors := getDocumentAnchors r retrievalQuery intent
  let merged0 := mergeU r base anchors (max (targetTopK * 2) 70)
  let conceptLinked := expandImplicitConceptLinks r merged0 retrievalQuery
    (max 10 ((13 * targetTopK + 19) / 20))
  let merged1 := mergeU r merged0 conceptLinked (max (targetTopK * MAX_MERGED_MULTIPLIER) 110)
  let refinement := superBrainRunRetrievalRefinement r retrievalQuery merged1 targetTopK
    options intent (some origF)
  let merged2 := refinement.chunks
  let ranked := rankSelect r retrievalQuery intent merged2 targetTopK
  let spreadEnforced := enforceDocumentCoverage r ranked anchors targetTopK
  let out0 := (spreadEnforced.take targetTopK)
  let out1 := superBrainDeepScanAugment r retrievalQuery out0 targetTopK
  let broadQuestion := intent.broadCoverage || intent.comparative || intent.timeline ||
    jsTestWordAlt query broadQuestionKeywords
  let requiredDocs :=
    if broadQuestion then
      (if 7 ≤ r.documents.length then 3 else min r.documents.length MIN_CROSS_SOURCE_DOCS)
    else 1
  let currentDocs := jsSet (out1.filterMap truthyFilename)
  let out2 :=
    if broadQuestion ∧ MIN_CROSS_SOURCE_DOCS ≤ r.documents.length ∧
        currentDocs.length < requiredDocs then
      let crossAnchors := getDocumentAnchors r
        (retrievalQuery ++ " cross-source corroboration") intent
      crossInjectLoop targetTopK requiredDocs crossAnchors out1 currentDocs
    else out1
  out2.take targetTopK

/-- Everything patchedRetrieve does after the successful base retrieval call:
anchor union, bridge expansion, refinement, ranking, coverage enforcement,
deep-scan augmentation and cross-source anchor injection. -/
def patchedPipeline (r : Retriever) (query : String) (topK : Option Nat)
    (options : RetrievalOptions) (origF : BaseRetrieve) (base : List Chunk) : List Chunk :=
  let retrievalQuery := patchedQuery r query
  let intent := patchedIntent r query options
  let targetTopK := patchedTargetTopK r topK
  patchedTail r query retrievalQuery intent targetTopK options origF base

/-- patchedRetrieve(query, topK, options) wrapping the base retriever origF.
The base call may throw (propagated); the activation-report assignment is a
write to instance state and does not affect the returned list, so it is
omitted here. -/
def patchedRetrieve (r : Retriever) (query : String) (topK : Option Nat)
    (options : RetrievalOptions) (origF : BaseRetrieve) : Except Unit (List Chunk) :=
  if r.allChunks.isEmpty then Except.ok []
  else
    match origF (patchedQuery r query)
        (max 18 ((4 * patchedTargetTopK r topK + 4) / 5))
        { options with intent := some (patchedIntent r query options) } with
    | Except.error e => Except.error e
    | Except.ok base => Except.ok (patchedPipeline r query topK options origF base)


/-! ### superBrainAssessEvidenceCompleteness -/

/-- The activation report as read by the assessor (it reads only
totalDocuments and activationCoveragePct, both through falsy-coalescing, so 0
models an absent field). -/
structure ActivationReportIn where
  totalDocuments : Nat := 0
  activationCoveragePct : ℚ := 0

/-- The instruction profile as read by the assessor. -/
structure InstructionProfile where
  decisionMode : Bool := false

/-- The structured mental model as read by the assessor: only gaps is read,
and a non-array value behaves as absent. -/
structure MentalModel where
  gaps : Option (List String) := none

/-- The evidence-completeness verdict. -/
structure CompletenessVerdict where
  needsMoreEvidence : Bool
  sourceCount : Nat
  docCount : Nat
  totalDocs : Nat
  requiredDocs : Nat
  activationCoverage : ℚ
  reasons : List String
  requestedDocuments : List String

/-- The dedup key of a source: item.id when truthy, else
filename:index:page with the falsy fallbacks of the source template. -/
def assessFallbackKey (c : Chunk) : String :=
  (match c.filename with
   | some s => if s.data.isEmpty then "unknown" else s
   | none => "unknown")
  ++ ":" ++ toString c.index ++ ":" ++ (if c.page = 0 then "na" else toString c.page)

/-- item?.id or the fallback key. -/
def assessKey (c : Chunk) : String :=
  match c.id with
  | some s => if s.data.isEmpty then assessFallbackKey c else s
  | none => assessFallbackKey c

def noEvidenceReason : String := "No retrievable evidence was found for the question."

def crossSourceReason (docCount requiredDocs : Nat) : String :=
  "Cross-source coverage is insufficient (" ++ toString docCount ++ "/" ++
    toString requiredDocs ++ " required documents)."

def lowCoverageReason (cov : ℚ) : String :=
  "Activation coverage remains low for a broad query (" ++ toString cov ++ "%)."

def gapsReason : String := "Mental model still has unresolved high-priority evidence gaps."

def primaryRequest (query : String) : String :=
  "Primary source documents directly addressing: \"" ++ query ++ "\""

def additionalDocsRequest (requiredDocs : Nat) : String :=
  "Additional relevant sources from at least " ++ toString requiredDocs ++
    " distinct documents are needed."

/-- Strip the heuristic gap marker and quotes from a gap string:
.replace(/^Insufficient direct evidence for concept:\s* /i, '')
.replace(/"/g, '').trim(). -/
def stripGapText (gap : String) : String :=
  let pfxLow := "insufficient direct evidence for concept:".data
  let d := gap.data
  let stripped :=
    if listStarts pfxLow (lowerChars d) then (d.drop pfxLow.length).dropWhile isWsChar else d
  jsTrim (String.mk (stripped.filter (fun c => c ≠ '\"')))

def gapRequest (gap : String) : String :=
  "Source material that explicitly covers: " ++ stripGapText gap

/-- superBrainAssessEvidenceCompleteness(query, sources, model,
activationReport, instructionProfile): a pure function of its arguments. -/
def superBrainAssessEvidenceCompleteness (query : String) (sources : List Chunk)
    (model : Option MentalModel) (activationReport : ActivationReportIn)
    (instructionProfile : InstructionProfile) : CompletenessVerdict :=
  let deduped := uniqBy sources (fun c => some (assessKey c))
  let sourceCount := deduped.length
  let docCount := (jsSet (deduped.filterMap truthyFilename)).length
  let totalDocs := jsOrN activationReport.totalDocuments docCount
  let broadOrDecision := instructionProfile.decisionMode ||
    jsTestWordAlt query broadOrDecisionKeywords
  let requiredDocs :=
    if broadOrDecision then (if 7 ≤ totalDocs then 3 else min totalDocs MIN_CROSS_SOURCE_DOCS)
    else 1
  let activationCoverage := activationReport.activationCoveragePct
  let gapCount :=
    match model with
    | some m => match m.gaps with | some g => g.length | none => 0
    | none => 0
  let reasons :=
    (if sourceCount = 0 then [noEvidenceReason] else [])
    ++ (if 1 < requiredDocs ∧ docCount < requiredDocs then
          [crossSourceReason docCount requiredDocs] else [])
    ++ (if broadOrDecision ∧ 5 ≤ totalDocs ∧ 0 < activationCoverage ∧ activationCoverage < 22
        then [lowCoverageReason activationCoverage] else [])
    ++ (if MODEL_GAP_THRESHOLD ≤ gapCount ∧ docCount < max 2 requiredDocs then [gapsReason]
        else [])
  let gapsList :=
    match model with
    | some m => m.gaps.getD []
    | none => []
  let requested :=
    (if sourceCount = 0 then [primaryRequest query] else [])
    ++ (if 1 < requiredDocs ∧ docCount < requiredDocs then [additionalDocsRequest requiredDocs]
        else [])
    ++ (gapsList.take 5).map gapRequest
  { needsMoreEvidence := !reasons.isEmpty
    sourceCount := sourceCount
    docCount := docCount
    totalDocs := totalDocs
    requiredDocs := requiredDocs
    activationCoverage := activationCoverage
    reasons := uniqBy reasons (fun s => some s)
    requestedDocuments := (uniqBy (requested.filter (fun s => !s.data.isEmpty))
      (fun s => some s)).take 8 }

/-! ### The adversarial retrieval pass (revised patch script) -/

/-- superBrainContradictionSignalScore(text): 0.5 per contradiction-marker
pattern per capped match count (at most 2 per pattern), capped at 6. -/
def superBrainContradictionSignalScore (text : String) : ℚ :=
  let value := lowerChars text.data
  if value.isEmpty then 0
  else
    let score := contradictionPatterns.foldl (fun acc alts =>
      let c := countWordAlt value (alts.map String.data)
      if 1 ≤ c then acc + ((min 2 c : Nat) : ℚ) * 0.5 else acc) (0 : ℚ)
    min 6 score

/-- pushHypothesis of superBrainBuildPredictiveModel. -/
def pushHypothesis (hs : List PredictiveHypothesis) (t statement : String) (confidence : ℚ) :
    List PredictiveHypothesis :=
  let cleaned := cleanWs statement
  if cleaned.data.isEmpty then hs
  else hs ++ [{ htype := t, statement := cleaned, confidence := confidence,
                nonFactualPrior := true }]

/-- superBrainBuildPredictiveModel(query, intentGraph, intent) of the revised
patch script. -/
def superBrainBuildPredictiveModel (r : Retriever) (query : String)
    (intentGraphOpt : Option IntentGraph) (intent : Intent) : PredictiveModel :=
  let graph := intentGraphOpt.getD (superBrainBuildIntentGraph r query)
  let raw := cleanWs query
  let hs := pushHypothesis [] "baseline_rule"
    ("Test hypothesis: identify the governing baseline rule(s) for \"" ++ raw ++ "\".") 0.58
  let hs := if !graph.constraints.isEmpty then
      pushHypothesis hs "constraint"
        ("Test hypothesis: constraints materially narrow feasible options (" ++
          strJoin "; " (graph.constraints.take 2) ++ ").") 0.63
    else hs
  let hs := if !graph.relations.isEmpty || intent.comparative then
      pushHypothesis hs "tradeoff"
        "Test hypothesis: competing factors require explicit trade-off analysis instead of one-rule resolution." 0.66
    else hs
  let hs := if jsTestWordAlt raw exceptionKeywords then
      pushHypothesis hs "exception"
        "Test hypothesis: exception/override clauses may exist and must be verified directly in source text." 0.72
    else hs
  let hs := if jsTestWordAlt raw hierarchyKeywords then
      pushHypothesis hs "hierarchy"
        "Test hypothesis: precedence may be resolved by explicit hierarchy language (specificity/authority/recency) if citations confirm it." 0.76
    else hs
  let anticipatedConclusion :=
    if !hs.isEmpty then
      "Provisional non-factual prior for retrieval planning: " ++
        strJoin " " ((hs.take 2).map PredictiveHypothesis.statement)
    else
      "Provisional non-factual prior for retrieval planning only; no conclusion until evidence is cited for: " ++ raw
  { query := raw
    anticipatedConclusion := anticipatedConclusion
    hypotheses := (uniqBy hs (fun h => some (h.htype ++ ":" ++ h.statement))).take
      MAX_PREDICTIVE_HYPOTHESES
    expectedEvidenceNeeds :=
      ["baseline rule text", "exception/override clauses",
       "conflict resolution precedence statements", "implementation/action constraints"]
    weightingPriors :=
      { authority := "Prefer official, policy-grade, and source-of-record documents over summaries."
        recency := "Prefer newer versions where temporal conflict exists."
        contextualRelevance := "Prefer clauses that match the exact scenario and constraints from the query." } }

/-- superBrainBuildAdversarialQueries(query, seedChunks, intentGraph,
predictiveModel): contradiction-seeking probes. -/
def superBrainBuildAdversarialQueries (r : Retriever) (query : String) (seedChunks : List Chunk)
    (intentGraphOpt : Option IntentGraph) (predictiveOpt : Option PredictiveModel) :
    List String :=
  let graph := intentGraphOpt.getD (superBrainBuildIntentGraph r query)
  let predictive := predictiveOpt.getD (superBrainBuildPredictiveModel r query (some graph) {})
  let probes := pushProbe [] (query ++ " contradictory evidence limitations exceptions")
  let probes := pushProbe probes (query ++ " counterexamples boundary conditions")
  let probes := pushProbe probes (query ++ " risks unintended consequences failure modes")
  let probes := if !graph.constraints.isEmpty then
      pushProbe probes (query ++ " constraints violated edge cases")
    else probes
  let probes := if !graph.relations.isEmpty then
      pushProbe probes (query ++ " alternative causal explanation contradictory evidence")
    else probes
  let seedConcepts := (uniqBy (seedChunks.flatMap (fun c => extractRichConcepts r c.text))
    (fun s => some (normalizeConcept s))).take 6
  let probes := if !seedConcepts.isEmpty then
      pushProbe probes (query ++ " " ++ strJoin " " seedConcepts ++ " contradictions exceptions")
    else probes
  let probes := if !predictive.anticipatedConclusion.data.isEmpty then
      pushProbe probes (query ++ " evidence that challenges this expectation: " ++
        predictive.anticipatedConclusion)
    else probes
  (uniqBy probes (fun p => some (normalizeConcept p))).take (MAX_ADVERSARIAL_RETRIEVAL_PASSES + 2)

/-- The adversarial result record. -/
structure AdversarialResult where
  chunks : List Chunk
  passes : Nat
  probes : List String
deriving DecidableEq

/-- mergeUniqueChunks(retrieved, anchors, 96) or the uniqBy fallback. -/
def adversarialMergeProbe (r : Retriever) (retrieved anchors : List Chunk) : List Chunk :=
  match r.mergeUniqueChunksFn with
  | some m => m retrieved anchors 96
  | none => uniqBy (retrieved ++ anchors) Chunk.id

/-- mergeUniqueChunks(aggregated, scoredProbe, 220) or the uniqBy fallback. -/
def adversarialAccMerge (r : Retriever) (aggregated scoredProbe : List Chunk) : List Chunk :=
  match r.mergeUniqueChunksFn with
  | some m => m aggregated scoredProbe 220
  | none => uniqBy (aggregated ++ scoredProbe) Chunk.id

/-- Scoring of one probe's merged result: 0.72 * lexical plus 0.09 * capped
contradiction signal, tagged and sorted by score descending. -/
def adversarialScoreProbe (r : Retriever) (query probe : String) (qt qe qc : List String)
    (mergedProbe : List Chunk) : List Chunk :=
  sortBy descScoreLe (mergedProbe.map (fun c =>
    let lexical := jsOrQ c.score (relScore r c query qt qe qc)
    let contradictionSignal := superBrainContradictionSignalScore c.text
    { c with score := lexical * 0.72 + min 5 contradictionSignal * 0.09,
             adversarialSignal := some contradictionSignal,
             adversarialProbe := some probe }))

/-- The adversarial probe loop: up to MAX_ADVERSARIAL_RETRIEVAL_PASSES passes,
each recovered from base-retrieval failure, merged into the aggregate. -/
def adversarialLoop (r : Retriever) (query : String) (options : RetrievalOptions)
    (intent : Intent) (f : BaseRetrieve) (qt qe qc : List String) :
    List String → Nat → List Chunk → Nat × List Chunk
  | [], passes, aggregated => (passes, aggregated)
  | probe :: rest, passes, aggregated =>
    if MAX_ADVERSARIAL_RETRIEVAL_PASSES ≤ passes then (passes, aggregated)
    else
      let retrieved :=
        match f probe (max DEFAULT_TARGET_K_SMALL 18)
          { options with
            intent := some { intent with broadCoverage := true, comparative := true } } with
        | Except.ok l => l
        | Except.error _ => []
      let anchors := getDocumentAnchors r probe
        { intent with broadCoverage := true, comparative := true }
      let scoredProbe := adversarialScoreProbe r query probe qt qe qc
        (adversarialMergeProbe r retrieved anchors)
      adversarialLoop r query options intent f qt qe qc rest (passes + 1)
        (adversarialAccMerge r aggregated scoredProbe)

/-- The probe list used by one adversarial run. -/
def adversarialProbesOf (r : Retriever) (query : String) (seedChunks : List Chunk)
    (options : RetrievalOptions) (intent : Intent) : List String :=
  let intentGraph := superBrainBuildIntentGraph r query
  let predictiveModel := options.predictiveModel.getD
    (superBrainBuildPredictiveModel r query (some intentGraph) intent)
  superBrainBuildAdversarialQueries r query seedChunks (some intentGraph) (some predictiveModel)

/-- Pass count and aggregated candidate set of one adversarial run. -/
def adversarialAggregated (r : Retriever) (query : String) (seedChunks : List Chunk)
    (options : RetrievalOptions) (intent : Intent) (f : BaseRetrieve) : Nat × List Chunk :=
  adversarialLoop r query options intent f (tokensOf r query) (entitiesOf r query)
    (conceptsOf r query) (adversarialProbesOf r query seedChunks options intent) 0 []

/-- Comparator ((b.adversarialSignal or 0) - (a.adversarialSignal or 0)) ||
((b.score or 0) - (a.score or 0)) as a precedence test. -/
def leSignalScore (a b : Chunk) : Bool :=
  if jsOrZ a.adversarialSignal = jsOrZ b.adversarialSignal then decide (b.score ≤ a.score)
  else decide (jsOrZ b.adversarialSignal ≤ jsOrZ a.adversarialSignal)

/-- The final selection of superBrainRunAdversarialRetrieval from the
aggregated candidates: positive-signal chunks first (capped at
MAX_ADVERSARIAL_CHUNKS); when none exist, the highest-score candidates under
the smaller cap min(MAX_ADVERSARIAL_CHUNKS, 8). -/
def adversarialSelect (aggregated : List Chunk) : List Chunk :=
  let prioritized := uniqBy (sortBy leSignalScore
    (aggregated.filter (fun c => decide (0 < jsOrZ c.adversarialSignal)))) Chunk.id
  if !prioritized.isEmpty then prioritized.take MAX_ADVERSARIAL_CHUNKS
  else (uniqBy (sortBy descScoreLe aggregated) Chunk.id).take (min MAX_ADVERSARIAL_CHUNKS 8)

/-- superBrainRunAdversarialRetrieval(query, seedChunks, options, intent,
originalRetrieve) of the revised patch script. -/
def superBrainRunAdversarialRetrieval (r : Retriever) (query : String) (seedChunks : List Chunk)
    (options : RetrievalOptions) (intent : Intent) (originalRetrieve : Option BaseRetrieve) :
    AdversarialResult :=
  match originalRetrieve with
  | none => { chunks := [], passes := 0, probes := [] }
  | some f =>
    let probes := adversarialProbesOf r query seedChunks options intent
    let p := adversarialAggregated r query seedChunks options intent f
    { chunks := adversarialSelect p.2, passes := p.1, probes := probes }

/-! ### Notions used by the statements -/

/-- The seen-key set after uniqByAux has processed a list. -/
def uniqSeenAfter {α κ : Type} [DecidableEq κ] (keyFn : α → Option κ) (seen : List κ) :
    List α → List κ
  | [] => seen
  | x :: xs =>
    match keyFn x with
    | none => uniqSeenAfter keyFn seen xs
    | some k => if k ∈ seen then uniqSeenAfter keyFn seen xs
                else uniqSeenAfter keyFn (k :: seen) xs

/-- A base retriever whose failures are replaced by successful empty results;
running the refinement loop against it models "a failed probe behaves exactly
like a probe whose base retrieval returned no chunks". -/
def exceptRecover (f : BaseRetrieve) : BaseRetrieve :=
  fun p k o => Except.ok (match f p k o with | Except.ok l => l | Except.error _ => [])

/-- The claim's stability hypothesis about one pass of the refinement loop
processing probe from state st: the pass adds no new distinct document and
adds at least zero and fewer than RETRIEVAL_STABLE_CHUNK_DELTA new chunks to
the accumulated set. -/
def probeAddsStable (r : Retriever) (topK : Nat) (options : RetrievalOptions) (intent : Intent)
    (origF : BaseRetrieve) (probe : String) (st : RefineState) : Prop :=
  let merged := refineStepMerged r topK options intent origF probe st.merged
  let chunkDelta : Int := (merged.length : Int) - (st.prevChunkCount : Int)
  let docDelta : Int := ((jsSet (merged.map Chunk.filename)).length : Int) - (st.prevDocCount : Int)
  docDelta = 0 ∧ 0 ≤ chunkDelta ∧ chunkDelta < (RETRIEVAL_STABLE_CHUNK_DELTA : Int)

instance (r : Retriever) (topK : Nat) (options : RetrievalOptions) (intent : Intent)
    (origF : BaseRetrieve) (probe : String) (st : RefineState) :
    Decidable (probeAddsStable r topK options intent origF probe st) := by
  unfold probeAddsStable
  exact inferInstance

/-- The chunk's filename is determined by its id through the corpus naming
function fn: the data-model invariant that chunk ids are unique within a
corpus generation (so an id always denotes the same document). -/
def ChunkIdFile (fn : String → Option String) (c : Chunk) : Prop :=
  ∀ k, c.id = some k → c.filename = fn k

/-- Well-formedness of a retrieval run: every chunk held by the retriever
state or produced by the base retriever belongs to the corpus naming function
fn, and the selection collaborators of the base class (merge, even
distribution, semantic rerank, diversify) select from their inputs. -/
structure CorpusCoherent (fn : String → Option String) (r : Retriever) (origF : BaseRetrieve) :
    Prop where
  allOk : ∀ c ∈ r.allChunks, ChunkIdFile fn c
  docsOk : ∀ d ∈ r.documents, ∀ c ∈ d.chunks, ChunkIdFile fn c
  lookupOk : ∀ m, r.chunkLookup = some m → ∀ p ∈ m, ChunkIdFile fn p.2
  baseOk : ∀ q k o l, origF q k o = Except.ok l → ∀ c ∈ l, ChunkIdFile fn c
  mergeSub : ∀ m, r.mergeUniqueChunksFn = some m → ∀ a b n c, c ∈ m a b n → c ∈ a ∨ c ∈ b
  pickSub : ∀ p, r.pickEvenlyDistributedFn = some p → ∀ l n c, c ∈ p l n → c ∈ l
  rerankSub : ∀ s, r.semanticRerankFn = some s → ∀ q l n i c, c ∈ s q l n i → c ∈ l
  divSub : ∀ d, r.diversifyResultsFn = some d → ∀ l n c, c ∈ d l n → c ∈ l

/-! ### Concrete fixtures for the witnesses -/

/-- A corpus chunk of document f. -/
def chunkA : Chunk := { id := some "a", filename := some "f", text := "x" }

/-- A corpus chunk of document g, reachable through the concept index. -/
def chunkB : Chunk := { id := some "b", filename := some "g", text := "y" }

/-- A chunk without id. -/
def chunkNoId : Chunk := { text := "z" }

/-- The single document of the witness corpus. -/
def docF : Document := { filename := some "f", chunks := [chunkA] }

/-- The empty retriever state. -/
def rEmpty : Retriever := {}

/-- A one-document, one-chunk retriever state with no collaborators. -/
def rOneDoc : Retriever := { allChunks := [chunkA], documents := [docF] }

/-- A retriever state with a one-edge concept graph, a concept index pointing
at chunkB, and an id-consistent chunk lookup. -/
def rBridge : Retriever :=
  { superConceptGraph := [("alpha", [("beta", 1)])]
    conceptToChunkIds := [("alpha", [some "b"])]
    chunkLookup := some [(some "b", chunkB)]
    chunkConceptsCache := some [(some "a", ["alpha"])] }

/-- A base retriever that throws on every call. -/
def throwingRetrieve : BaseRetrieve := fun _ _ _ => Except.error ()

/-- A base retriever that returns no chunks on every call. -/
def emptyRetrieve : BaseRetrieve := fun _ _ _ => Except.ok []

/-- The corpus naming function of the witness corpus. -/
def fnW : String → Option String := fun _ => some "f"

/-- A loop state for the stabilization witness: fresh accumulator, first pass. -/
def stW : RefineState :=
  { merged := [], passes := 1, stableHits := 0, prevChunkCount := 0, prevDocCount := 0 }

/-! ## Lemmas about the generic helpers -/

theorem uniqByAux_sublist {α κ : Type} [DecidableEq κ] (keyFn : α → Option κ)
    (seen : List κ) (l : List α) : (uniqByAux keyFn seen l).Sublist l := by
  induction l generalizing seen with
  | nil => simp [uniqByAux]
  | cons x xs ih =>
    rw [uniqByAux]
    cases h : keyFn x with
    | none => exact (ih seen).cons x
    | some k =>
      by_cases hk : k ∈ seen
      · simp only [if_pos hk]
        exact (ih seen).cons x
      · simp only [if_neg hk]
        exact (ih (k :: seen)).cons₂ x

theorem mem_of_mem_uniqByAux {α κ : Type} [DecidableEq κ] {keyFn : α → Option κ}
    {seen : List κ} {l : List α} {x : α} (h : x ∈ uniqByAux keyFn seen l) : x ∈ l :=
  (uniqByAux_sublist keyFn seen l).subset h

theorem mem_of_mem_uniqBy {α κ : Type} [DecidableEq κ] {keyFn : α → Option κ}
    {l : List α} {x : α} (h : x ∈ uniqBy l keyFn) : x ∈ l :=
  mem_of_mem_uniqByAux h

theorem key_ne_none_of_mem_uniqByAux {α κ : Type} [DecidableEq κ] {keyFn : α → Option κ}
    {seen : List κ} {l : List α} {x : α} (h : x ∈ uniqByAux keyFn seen l) : keyFn x ≠ none := by
  induction l generalizing seen with
  | nil => simp [uniqByAux] at h
  | cons y ys ih =>
    rw [uniqByAux] at h
    split at h
    · exact ih h
    · rename_i k hy
      split at h
      · exact ih h
      · rcases List.mem_cons.mp h with rfl | h2
        · simp [hy]
        · exact ih h2

theorem key_ne_none_of_mem_uniqBy {α κ : Type} [DecidableEq κ] {keyFn : α → Option κ}
    {l : List α} {x : α} (h : x ∈ uniqBy l keyFn) : keyFn x ≠ none :=
  key_ne_none_of_mem_uniqByAux h

theorem uniqByAux_keys {α κ : Type} [DecidableEq κ] (keyFn : α → Option κ)
    (seen : List κ) (l : List α) :
    ((uniqByAux keyFn seen l).map keyFn).Nodup ∧
      ∀ x ∈ uniqByAux keyFn seen l, ∀ k, keyFn x = some k → k ∉ seen := by
  induction l generalizing seen with
  | nil => simp [uniqByAux]
  | cons y ys ih =>
    rw [uniqByAux]
    split
    · exact ih seen
    · rename_i k hy
      split
      · exact ih seen
      · rename_i hk
        obtain ⟨ihNodup, ihSeen⟩ := ih (k :: seen)
        constructor
        · rw [List.map_cons, List.nodup_cons]
          refine ⟨?_, ihNodup⟩
          intro hmem
          rcases List.mem_map.mp hmem with ⟨z, hz, hzk⟩
          have hzk2 := key_ne_none_of_mem_uniqByAux hz
          cases hzz : keyFn z with
          | none => exact hzk2 hzz
          | some k2 =>
            have : k2 ∉ k :: seen := ihSeen z hz k2 hzz
            rw [hy, hzz] at hzk
            rw [Option.some_inj.mp hzk] at this
            exact this (List.mem_cons_self k seen)
        · intro x hx k2 hk2
          rcases List.mem_cons.mp hx with rfl | hx2
          · rw [hy] at hk2
            rw [← Option.some_inj.mp hk2]
            exact hk
          · intro hcon
            exact ihSeen x hx2 k2 hk2 (List.mem_cons_of_mem k hcon)

theorem uniqBy_keys_nodup {α κ : Type} [DecidableEq κ] (keyFn : α → Option κ) (l : List α) :
    ((uniqBy l keyFn).map keyFn).Nodup :=
  (uniqByAux_keys keyFn [] l).1

theorem uniqByAux_ne_nil {α κ : Type} [DecidableEq κ] {keyFn : α → Option κ} {l : List α}
    (hne : l ≠ []) (hkeys : ∀ x ∈ l, keyFn x ≠ none) : uniqBy l keyFn ≠ [] := by
  cases l with
  | nil => exact absurd rfl hne
  | cons x xs =>
    have hx := hkeys x (List.mem_cons_self x xs)
    rw [uniqBy, uniqByAux]
    cases hk : keyFn x with
    | none => exact absurd hk hx
    | some k => simp

theorem mem_uniqByAux_id {α : Type} [DecidableEq α] (seen : List α) (l : List α) (x : α) :
    x ∈ uniqByAux (fun y => some y) seen l ↔ x ∈ l ∧ x ∉ seen := by
  induction l generalizing seen with
  | nil => simp [uniqByAux]
  | cons y ys ih =>
    show x ∈ (if y ∈ seen then uniqByAux (fun y => some y) seen ys
      else y :: uniqByAux (fun y => some y) (y :: seen) ys) ↔ _
    by_cases hy : y ∈ seen
    · rw [if_pos hy, ih seen]
      constructor
      · rintro ⟨h1, h2⟩
        exact ⟨List.mem_cons_of_mem y h1, h2⟩
      · rintro ⟨h1, h2⟩
        rcases List.mem_cons.mp h1 with rfl | h3
        · exact absurd hy h2
        · exact ⟨h3, h2⟩
    · rw [if_neg hy]
      constructor
      · intro h
        rcases List.mem_cons.mp h with rfl | h2
        · exact ⟨List.mem_cons_self x ys, hy⟩
        · obtain ⟨h3, h4⟩ := (ih (y :: seen)).mp h2
          refine ⟨List.mem_cons_of_mem y h3, fun hc => h4 (List.mem_cons_of_mem y hc)⟩
      · rintro ⟨h1, h2⟩
        rcases List.mem_cons.mp h1 with rfl | h3
        · exact List.mem_cons_self x _
        · by_cases hxy : x = y
          · subst hxy
            exact List.mem_cons_self x _
          · exact List.mem_cons_of_mem y ((ih (y :: seen)).mpr
              ⟨h3, fun hc => (List.mem_cons.mp hc).elim hxy h2⟩)

theorem mem_jsSet {α : Type} [DecidableEq α] (l : List α) (x : α) :
    x ∈ jsSet l ↔ x ∈ l := by
  rw [jsSet, uniqBy, mem_uniqByAux_id]
  simp

theorem insertTailBy_perm {α : Type} (le : α → α → Bool) (x : α) (l : List α) :
    (insertTailBy le x l).Perm (x :: l) := by
  induction l with
  | nil => simp [insertTailBy]
  | cons y ys ih =>
    rw [insertTailBy]
    by_cases h : le y x
    · rw [if_pos h]
      exact (ih.cons y).trans (List.Perm.swap x y ys)
    · rw [if_neg h]

theorem sortBy_foldl_perm {α : Type} (le : α → α → Bool) (l acc : List α) :
    (l.foldl (fun a x => insertTailBy le x a) acc).Perm (acc ++ l) := by
  induction l generalizing acc with
  | nil => simp
  | cons x xs ih =>
    rw [List.foldl_cons]
    refine (ih (insertTailBy le x acc)).trans ?_
    have h1 : (insertTailBy le x acc ++ xs).Perm ((x :: acc) ++ xs) :=
      (insertTailBy_perm le x acc).append_right xs
    refine h1.trans ?_
    rw [List.cons_append]
    exact List.perm_middle.symm

theorem sortBy_perm {α : Type} (le : α → α → Bool) (l : List α) :
    (sortBy le l).Perm l := by
  have := sortBy_foldl_perm le l []
  simpa [sortBy] using this

theorem mem_sortBy {α : Type} {le : α → α → Bool} {l : List α} {x : α} :
    x ∈ sortBy le l ↔ x ∈ l :=
  (sortBy_perm le l).mem_iff

theorem sortBy_ne_nil {α : Type} (le : α → α → Bool) {l : List α} (h : l ≠ []) :
    sortBy le l ≠ [] := by
  intro hc
  have := (sortBy_perm le l).length_eq
  rw [hc] at this
  exact h (List.length_eq_zero.mp this.symm)

theorem insertTailBy_pairwise {α : Type} {le : α → α → Bool}
    (htot : ∀ a b, le a b = true ∨ le b a = true)
    (htrans : ∀ a b c, le a b = true → le b c = true → le a c = true)
    {l : List α} (x : α) (hl : l.Pairwise (fun a b => le a b = true)) :
    (insertTailBy le x l).Pairwise (fun a b => le a b = true) := by
  induction l with
  | nil => simp [insertTailBy]
  | cons y ys ih =>
    rw [List.pairwise_cons] at hl
    obtain ⟨hy, hys⟩ := hl
    rw [insertTailBy]
    by_cases h : le y x
    · rw [if_pos h]
      rw [List.pairwise_cons]
      refine ⟨?_, ih hys⟩
      intro z hz
      have hz2 := (insertTailBy_perm le x ys).mem_iff.mp hz
      rcases List.mem_cons.mp hz2 with rfl | hz3
      · exact h
      · exact hy z hz3
    · rw [if_neg h]
      have hxy : le x y = true := (htot x y).resolve_right (fun hc => h hc)
      rw [List.pairwise_cons]
      refine ⟨?_, List.Pairwise.cons hy hys⟩
      intro z hz
      rcases List.mem_cons.mp hz with rfl | hz2
      · exact hxy
      · exact htrans x y z hxy (hy z hz2)

theorem sortBy_pairwise {α : Type} {le : α → α → Bool}
    (htot : ∀ a b, le a b = true ∨ le b a = true)
    (htrans : ∀ a b c, le a b = true → le b c = true → le a c = true)
    (l : List α) : (sortBy le l).Pairwise (fun a b => le a b = true) := by
  have haux : ∀ (l acc : List α), acc.Pairwise (fun a b => le a b = true) →
      (l.foldl (fun a x => insertTailBy le x a) acc).Pairwise (fun a b => le a b = true) := by
    intro l
    induction l with
    | nil => intro acc h; simpa using h
    | cons x xs ih =>
      intro acc h
      rw [List.foldl_cons]
      exact ih (insertTailBy le x acc) (insertTailBy_pairwise htot htrans x h)
  exact haux l [] (by simp)

theorem assocGet_mem {κ β : Type} [DecidableEq κ] {m : List (κ × β)} {k : κ} {v : β}
    (h : assocGet m k = some v) : (k, v) ∈ m := by
  induction m with
  | nil => simp [assocGet] at h
  | cons p rest ih =>
    rw [assocGet] at h
    by_cases hp : p.1 = k
    · rw [if_pos hp] at h
      obtain ⟨p1, p2⟩ := p
      simp only at hp h
      subst hp
      rw [Option.some_inj.mp h]
      exact List.mem_cons_self _ _
    · rw [if_neg hp] at h
      exact List.mem_cons_of_mem p (ih h)

theorem uniqByAux_append {α κ : Type} [DecidableEq κ] (keyFn : α → Option κ)
    (seen : List κ) (l1 l2 : List α) :
    uniqByAux keyFn seen (l1 ++ l2) =
      uniqByAux keyFn seen l1 ++ uniqByAux keyFn (uniqSeenAfter keyFn seen l1) l2 := by
  induction l1 generalizing seen with
  | nil => simp [uniqByAux, uniqSeenAfter]
  | cons y ys ih =>
    rw [List.cons_append, uniqByAux, uniqByAux, uniqSeenAfter]
    split
    · exact ih seen
    · split
      · exact ih seen
      · rw [List.cons_append, ih]

theorem subset_uniqSeenAfter {α κ : Type} [DecidableEq κ] (keyFn : α → Option κ)
    (seen : List κ) (l : List α) {k : κ} (h : k ∈ seen) :
    k ∈ uniqSeenAfter keyFn seen l := by
  induction l generalizing seen with
  | nil => simpa [uniqSeenAfter] using h
  | cons y ys ih =>
    rw [uniqSeenAfter]
    split
    · exact ih _ h
    · split
      · exact ih _ h
      · exact ih _ (List.mem_cons_of_mem _ h)

theorem key_mem_uniqSeenAfter {α κ : Type} [DecidableEq κ] (keyFn : α → Option κ)
    (seen : List κ) {l : List α} {x : α} {k : κ} (hx : x ∈ l) (hk : keyFn x = some k) :
    k ∈ uniqSeenAfter keyFn seen l := by
  induction l generalizing seen with
  | nil => simp at hx
  | cons y ys ih =>
    rw [uniqSeenAfter]
    rcases List.mem_cons.mp hx with rfl | hx2
    · split
      · rename_i hnone
        rw [hk] at hnone
        exact absurd hnone (by simp)
      · rename_i k2 hy
        rw [hk] at hy
        obtain rfl := Option.some_inj.mp hy
        split
        · rename_i hmem
          exact subset_uniqSeenAfter keyFn seen ys hmem
        · exact subset_uniqSeenAfter keyFn _ ys (List.mem_cons_self _ _)
    · split
      · exact ih _ hx2
      · split
        · exact ih _ hx2
        · exact ih _ hx2

theorem uniqByAux_eq_nil {α κ : Type} [DecidableEq κ] {keyFn : α → Option κ}
    {seen : List κ} {l : List α} (h : ∀ x ∈ l, ∀ k, keyFn x = some k → k ∈ seen) :
    uniqByAux keyFn seen l = [] := by
  induction l with
  | nil => rfl
  | cons y ys ih =>
    rw [uniqByAux]
    split
    · exact ih (fun x hx k hk => h x (List.mem_cons_of_mem y hx) k hk)
    · rename_i k hy
      rw [if_pos (h y (List.mem_cons_self y ys) k hy)]
      exact ih (fun x hx k2 hk2 => h x (List.mem_cons_of_mem y hx) k2 hk2)

theorem uniqByAux_eq_self {α κ : Type} [DecidableEq κ] {keyFn : α → Option κ}
    {seen : List κ} {l : List α} (h1 : ∀ x ∈ l, keyFn x ≠ none)
    (h2 : (l.map keyFn).Nodup) (h3 : ∀ x ∈ l, ∀ k, keyFn x = some k → k ∉ seen) :
    uniqByAux keyFn seen l = l := by
  induction l generalizing seen with
  | nil => rfl
  | cons y ys ih =>
    rw [uniqByAux]
    rw [List.map_cons, List.nodup_cons] at h2
    obtain ⟨hym, hnd⟩ := h2
    split
    · rename_i hnone
      exact absurd hnone (h1 y (List.mem_cons_self y ys))
    · rename_i k hy
      rw [if_neg (h3 y (List.mem_cons_self y ys) k hy)]
      congr 1
      refine ih (fun x hx => h1 x (List.mem_cons_of_mem y hx)) hnd ?_
      intro x hx k2 hk2 hmem
      rcases List.mem_cons.mp hmem with rfl | hmem2
      · refine hym ?_
        rw [hy, ← hk2]
        exact List.mem_map_of_mem keyFn hx
      · exact h3 x (List.mem_cons_of_mem y hx) k2 hk2 hmem2

theorem uniqBy_append_self {α κ : Type} [DecidableEq κ] (keyFn : α → Option κ) (l : List α) :
    uniqBy (l ++ l) keyFn = uniqBy l keyFn := by
  have hnil : uniqByAux keyFn (uniqSeenAfter keyFn [] l) l = [] :=
    uniqByAux_eq_nil (fun _ hx k hk => key_mem_uniqSeenAfter keyFn [] hx hk)
  rw [uniqBy, uniqByAux_append, hnil, List.append_nil]
  rfl

theorem uniqBy_idem {α κ : Type} [DecidableEq κ] (keyFn : α → Option κ) (l : List α) :
    uniqBy (uniqBy l keyFn) keyFn = uniqBy l keyFn := by
  rw [uniqBy]
  exact uniqByAux_eq_self
    (fun x hx => key_ne_none_of_mem_uniqBy hx)
    (uniqBy_keys_nodup keyFn l)
    (fun x _ k _ => by simp)

theorem mem_foldl_append {α β : Type} (f : β → List α) (l : List β) (init : List α) (x : α) :
    x ∈ l.foldl (fun acc e => acc ++ f e) init ↔ x ∈ init ∨ ∃ e ∈ l, x ∈ f e := by
  induction l generalizing init with
  | nil => simp
  | cons e es ih =>
    rw [List.foldl_cons, ih]
    simp only [List.mem_append, List.mem_cons]
    constructor
    · rintro (⟨h | h⟩ | ⟨e2, he2, hx⟩)
      · exact Or.inl h
      · exact Or.inr ⟨e, Or.inl rfl, h⟩
      · exact Or.inr ⟨e2, Or.inr he2, hx⟩
    · rintro (h | ⟨e2, (rfl | he2), hx⟩)
      · exact Or.inl (Or.inl h)
      · exact Or.inl (Or.inr hx)
      · exact Or.inr ⟨e2, he2, hx⟩

/-! ## Lemmas about the refinement loop -/

theorem refineStep_passes (r : Retriever) (topK : Nat) (options : RetrievalOptions)
    (intent : Intent) (origF : BaseRetrieve) (probe : String) (st : RefineState) :
    (refineStep r topK options intent origF probe st).passes = st.passes + 1 := rfl

theorem refineLoop_passes_le (r : Retriever) (topK : Nat) (options : RetrievalOptions)
    (intent : Intent) (origF : BaseRetrieve) (probes : List String) (st : RefineState)
    (h : st.passes ≤ MAX_RETRIEVAL_REFINEMENT_PASSES) :
    (refineLoop r topK options intent origF probes st).passes ≤
      MAX_RETRIEVAL_REFINEMENT_PASSES := by
  induction probes generalizing st with
  | nil => exact h
  | cons p rest ih =>
    rw [refineLoop]
    split
    · exact h
    · rename_i hlt
      have hstep : (refineStep r topK options intent origF p st).passes ≤
          MAX_RETRIEVAL_REFINEMENT_PASSES := by
        rw [refineStep_passes]
        exact Nat.succ_le_of_lt (Nat.lt_of_not_le hlt)
      dsimp only
      split
      · exact hstep
      · exact ih _ hstep

theorem refineStepMerged_recover (r : Retriever) (topK : Nat) (options : RetrievalOptions)
    (intent : Intent) (f : BaseRetrieve) (probe : String) (merged0 : List Chunk) :
    refineStepMerged r topK options intent (exceptRecover f) probe merged0 =
      refineStepMerged r topK options intent f probe merged0 := by
  cases h : f probe (max 18 ((4 * topK + 4) / 5))
      { options with intent := some { intent with broadCoverage := true } } with
  | ok l => simp [refineStepMerged, exceptRecover, h]
  | error e => simp [refineStepMerged, exceptRecover, h]

theorem refineStep_recover (r : Retriever) (topK : Nat) (options : RetrievalOptions)
    (intent : Intent) (f : BaseRetrieve) (probe : String) (st : RefineState) :
    refineStep r topK options intent (exceptRecover f) probe st =
      refineStep r topK options intent f probe st := by
  simp only [refineStep, refineStepMerged_recover]

theorem refineLoop_recover (r : Retriever) (topK : Nat) (options : RetrievalOptions)
    (intent : Intent) (f : BaseRetrieve) (probes : List String) (st : RefineState) :
    refineLoop r topK options intent (exceptRecover f) probes st =
      refineLoop r topK options intent f probes st := by
  induction probes generalizing st with
  | nil => rfl
  | cons p rest ih =>
    rw [refineLoop, refineLoop, refineStep_recover]
    split
    · rfl
    · dsimp only
      split
      · rfl
      · exact ih _

/-! ## The claims -/

/-- Claim C1: for every query, seed chunk set, topK, options, intent and base
retriever — including one that throws on every probe — the refinement loop
terminates (it is a total function) and its pass count never exceeds
MAX_RETRIEVAL_REFINEMENT_PASSES. -/
theorem refinement_pass_budget_le (r : Retriever) (query : String) (seedChunks : List Chunk)
    (topK : Nat) (options : RetrievalOptions) (intent : Intent)
    (originalRetrieve : Option BaseRetrieve) :
    (superBrainRunRetrievalRefinement r query seedChunks topK options intent
      originalRetrieve).passes ≤ MAX_RETRIEVAL_REFINEMENT_PASSES := by
  cases originalRetrieve with
  | none =>
    show 1 ≤ MAX_RETRIEVAL_REFINEMENT_PASSES
    decide
  | some f =>
    have h1 : (1 : Nat) ≤ MAX_RETRIEVAL_REFINEMENT_PASSES := by decide
    simp only [superBrainRunRetrievalRefinement]
    exact refineLoop_passes_le r topK options intent f _ _ h1

/-- Claim C5: a probe whose base retrieval call throws behaves exactly as a
probe whose base retrieval returned no chunks: the refinement run against any
failing base retriever equals the run against its recovered version, so the
pass is still completed (anchors and bridge links merged with an empty base
result), the pass count still advances, the remaining probes still run, and
the stabilized flag is computed from the passes that ran. -/
theorem refinement_probe_failure_recovered (r : Retriever) (query : String)
    (seedChunks : List Chunk) (topK : Nat) (options : RetrievalOptions) (intent : Intent)
    (f : BaseRetrieve) :
    superBrainRunRetrievalRefinement r query seedChunks topK options intent (some f) =
      superBrainRunRetrievalRefinement r query seedChunks topK options intent
        (some (exceptRecover f)) := by
  rw [superBrainRunRetrievalRefinement, superBrainRunRetrievalRefinement, refineLoop_recover]

/-- Claim C8: with an empty corpus the patched retrieve returns an empty list
for every query, topK and options, without raising any error (in particular
the possibly-throwing base retriever is never called). -/
theorem empty_corpus_retrieve_empty (r : Retriever) (query : String) (topK : Option Nat)
    (options : RetrievalOptions) (origF : BaseRetrieve) (h : r.allChunks = []) :
    patchedRetrieve r query topK options origF = Except.ok [] := by
  rw [patchedRetrieve, h]
  rfl

/-- Witness for C8 at a concrete empty corpus and a base retriever that throws
on every call. -/
theorem empty_corpus_retrieve_empty_witness :
    rEmpty.allChunks = [] ∧
      patchedRetrieve rEmpty "What is the policy?" none {} throwingRetrieve = Except.ok [] :=
  ⟨rfl, empty_corpus_retrieve_empty rEmpty "What is the policy?" none {} throwingRetrieve rfl⟩

/-- Claim C9: the id-keyed dedup merge is idempotent: for chunk lists whose
elements all carry ids, deduplicating the list appended to itself equals
deduplicating it once, and deduplicating an already-deduplicated list leaves
it unchanged (same elements, same first-seen order). -/
theorem uniqBy_merge_idempotent (l : List Chunk) (_h : ∀ c ∈ l, c.id ≠ none) :
    uniqBy (l ++ l) Chunk.id = uniqBy l Chunk.id ∧
      uniqBy (uniqBy l Chunk.id) Chunk.id = uniqBy l Chunk.id :=
  ⟨uniqBy_append_self Chunk.id l, uniqBy_idem Chunk.id l⟩

/-- Witness for C9 on a concrete three-element list with a duplicate. -/
theorem uniqBy_merge_idempotent_witness :
    (∀ c ∈ [chunkA, chunkB, chunkA], c.id ≠ none) ∧
      (uniqBy ([chunkA, chunkB, chunkA] ++ [chunkA, chunkB, chunkA]) Chunk.id =
          uniqBy [chunkA, chunkB, chunkA] Chunk.id ∧
        uniqBy (uniqBy [chunkA, chunkB, chunkA] Chunk.id) Chunk.id =
          uniqBy [chunkA, chunkB, chunkA] Chunk.id) :=
  ⟨by decide, uniqBy_merge_idempotent [chunkA, chunkB, chunkA] (by decide)⟩

/-- Claim C10: every dedup through the shared uniqBy helper silently drops any
item whose key is null or undefined; in particular an id-less chunk never
appears in anchor-sampling output, bridge-expansion output, or an id-keyed
merged result. -/
theorem uniqBy_drops_keyless :
    (∀ (α κ : Type) (inst : DecidableEq κ) (items : List α) (keyFn : α → Option κ) (x : α),
        keyFn x = none → x ∉ @uniqBy α κ inst items keyFn) ∧
    (∀ (r : Retriever) (query : String) (intent : Intent) (c : Chunk),
        c.id = none → c ∉ getDocumentAnchors r query intent) ∧
    (∀ (r : Retriever) (seeds : List Chunk) (query : String) (limit : Nat) (c : Chunk),
        c.id = none → c ∉ expandImplicitConceptLinks r seeds query limit) ∧
    (∀ (a b : List Chunk) (c : Chunk), c.id = none → c ∉ uniqBy (a ++ b) Chunk.id) := by
  refine ⟨?_, ?_, ?_, ?_⟩
  · intro α κ inst items keyFn x hnone hmem
    exact key_ne_none_of_mem_uniqBy hmem hnone
  · intro r query intent c hnone hmem
    rw [getDocumentAnchors] at hmem
    split at hmem
    · simp at hmem
    · exact key_ne_none_of_mem_uniqBy hmem hnone
  · intro r seeds query limit c hnone hmem
    rw [expandImplicitConceptLinks] at hmem
    split at hmem
    · simp at hmem
    · exact key_ne_none_of_mem_uniqBy (List.take_subset _ _ hmem) hnone
  · intro a b c hnone hmem
    exact key_ne_none_of_mem_uniqBy hmem hnone

/-- The stableHits update of one refinement step, as a projection equation. -/
theorem refineStep_stableHits (r : Retriever) (topK : Nat) (options : RetrievalOptions)
    (intent : Intent) (origF : BaseRetrieve) (probe : String) (st : RefineState) :
    (refineStep r topK options intent origF probe st).stableHits =
      (if ((((jsSet ((refineStepMerged r topK options intent origF probe st.merged).map
              Chunk.filename)).length : Int) - (st.prevDocCount : Int) ≤ 0) ∧
          (((refineStepMerged r topK options intent origF probe st.merged).length : Int) -
              (st.prevChunkCount : Int) ≤ (RETRIEVAL_STABLE_CHUNK_DELTA : Int)))
       then st.stableHits + 1 else 0) := rfl

/-- A stable pass bumps the stability counter to at least one. -/
theorem refineStep_stableHits_pos (r : Retriever) (topK : Nat) (options : RetrievalOptions)
    (intent : Intent) (origF : BaseRetrieve) (probe : String) (st : RefineState)
    (h : probeAddsStable r topK options intent origF probe st) :
    1 ≤ (refineStep r topK options intent origF probe st).stableHits := by
  obtain ⟨hd, _, hc3⟩ := h
  rw [refineStep_stableHits, if_pos ⟨le_of_eq hd, le_of_lt hc3⟩]
  exact Nat.succ_le_succ (Nat.zero_le _)

/-- Claim C2: if two consecutive passes of the refinement loop each add zero
new distinct documents and fewer than RETRIEVAL_STABLE_CHUNK_DELTA new chunks
to the accumulated set, the loop stops at or before the next pass: its result
does not depend on any probe after the second stable one.  (The code in fact
breaks already after the first such stable pass.) -/
theorem refinement_stabilization_stops (r : Retriever) (topK : Nat) (options : RetrievalOptions)
    (intent : Intent) (origF : BaseRetrieve) (p1 p2 : String) (rest : List String)
    (st : RefineState)
    (h1 : probeAddsStable r topK options intent origF p1 st)
    (_h2 : probeAddsStable r topK options intent origF p2
      (refineStep r topK options intent origF p1 st)) :
    refineLoop r topK options intent origF (p1 :: p2 :: rest) st =
      refineLoop r topK options intent origF [p1, p2] st := by
  rw [refineLoop, refineLoop]
  split
  · rfl
  · dsimp only
    rw [if_pos (refineStep_stableHits_pos r topK options intent origF p1 st h1),
      if_pos (refineStep_stableHits_pos r topK options intent origF p1 st h1)]

/-- Witness for C2: a concrete environment (empty corpus, always-throwing base
retriever) where the first two passes are stable, so the third probe never
runs. -/
theorem refinement_stabilization_stops_witness :
    (probeAddsStable rEmpty 22 {} {} throwingRetrieve "p1" stW ∧
      probeAddsStable rEmpty 22 {} {} throwingRetrieve "p2"
        (refineStep rEmpty 22 {} {} throwingRetrieve "p1" stW)) ∧
      refineLoop rEmpty 22 {} {} throwingRetrieve ["p1", "p2", "p3"] stW =
        refineLoop rEmpty 22 {} {} throwingRetrieve ["p1", "p2"] stW :=
  ⟨⟨by decide, by decide⟩,
    refinement_stabilization_stops rEmpty 22 {} {} throwingRetrieve "p1" "p2" ["p3"] stW
      (by decide) (by decide)⟩

/-- Head character of an appended string. -/
theorem head_of_append (s t : String) (c : Char) (h : s.data.head? = some c) :
    (s ++ t).data.head? = some c := by
  rw [String.data_append]
  cases hs : s.data with
  | nil => rw [hs] at h; simp at h
  | cons a rest => rw [hs] at h; simpa using h

theorem crossSourceReason_head (a b : Nat) : (crossSourceReason a b).data.head? = some 'C' := by
  unfold crossSourceReason
  exact head_of_append _ _ _ (head_of_append _ _ _ (head_of_append _ _ _
    (head_of_append _ _ _ rfl)))

theorem additionalDocsRequest_head (n : Nat) :
    (additionalDocsRequest n).data.head? = some 'A' := by
  unfold additionalDocsRequest
  exact head_of_append _ _ _ (head_of_append _ _ _ rfl)

theorem primaryRequest_head (q : String) : (primaryRequest q).data.head? = some 'P' := by
  unfold primaryRequest
  exact head_of_append _ _ _ (head_of_append _ _ _ rfl)

theorem gapRequest_head (g : String) : (gapRequest g).data.head? = some 'S' := by
  unfold gapRequest
  exact head_of_append _ _ _ rfl

theorem lowCoverageReason_head (cov : ℚ) : (lowCoverageReason cov).data.head? = some 'A' := by
  unfold lowCoverageReason
  exact head_of_append _ _ _ (head_of_append _ _ _ rfl)

/-- Claim C6: when the activation report describes a corpus with exactly one
document, the assessor's required cross-source document count collapses to 1,
and it emits neither a cross-source-shortfall reason nor a request for
additional distinct documents. -/
theorem single_document_no_cross_source_shortfall (query : String) (sources : List Chunk)
    (model : Option MentalModel) (activationReport : ActivationReportIn)
    (instructionProfile : InstructionProfile) (h1 : activationReport.totalDocuments = 1) :
    (superBrainAssessEvidenceCompleteness query sources model activationReport
        instructionProfile).requiredDocs = 1 ∧
    (∀ a b : Nat, crossSourceReason a b ∉
      (superBrainAssessEvidenceCompleteness query sources model activationReport
        instructionProfile).reasons) ∧
    (∀ n : Nat, additionalDocsRequest n ∉
      (superBrainAssessEvidenceCompleteness query sources model activationReport
        instructionProfile).requestedDocuments) := by
  simp only [superBrainAssessEvidenceCompleteness, h1]
  have htot : ∀ dc : Nat, jsOrN 1 dc = 1 := fun dc => rfl
  simp only [htot]
  have hreq : ∀ (b : Bool),
      (if b = true then (if 7 ≤ 1 then 3 else min 1 MIN_CROSS_SOURCE_DOCS) else 1) = 1 := by
    intro b
    cases b <;> simp [MIN_CROSS_SOURCE_DOCS]
  rw [hreq]
  refine ⟨rfl, ?_, ?_⟩
  · intro a b hmem
    have hone : ¬ (1 : Nat) < 1 := by decide
    rcases List.mem_append.mp (mem_of_mem_uniqBy hmem) with h3 | hD
    · rcases List.mem_append.mp h3 with h2 | hC
      · rcases List.mem_append.mp h2 with hA | hB
        · split at hA
          · have : (crossSourceReason a b).data.head? = noEvidenceReason.data.head? := by
              rw [List.mem_singleton.mp hA]
            rw [crossSourceReason_head] at this
            exact absurd this (by decide)
          · simp at hA
        · split at hB
          · rename_i hcond
            exact hone hcond.1
          · simp at hB
      · split at hC
        · rename_i hcond
          have : ¬ (5 : Nat) ≤ 1 := by decide
          exact this hcond.2.1
        · simp at hC
    · split at hD
      · have : (crossSourceReason a b).data.head? = gapsReason.data.head? := by
          rw [List.mem_singleton.mp hD]
        rw [crossSourceReason_head] at this
        exact absurd this (by decide)
      · simp at hD
  · intro n hmem
    have h4 := mem_of_mem_uniqBy (List.mem_of_mem_take hmem)
    have h5 := List.mem_of_mem_filter h4
    have hone : ¬ (1 : Nat) < 1 := by decide
    rcases List.mem_append.mp h5 with h2 | hC
    · rcases List.mem_append.mp h2 with hA | hB
      · split at hA
        · have : (additionalDocsRequest n).data.head? = (primaryRequest query).data.head? := by
            rw [List.mem_singleton.mp hA]
          rw [additionalDocsRequest_head, primaryRequest_head] at this
          exact absurd this (by decide)
        · simp at hA
      · split at hB
        · rename_i hcond
          exact hone hcond.1
        · simp at hB
    · rcases List.mem_map.mp hC with ⟨g, _, hgr⟩
      have : (additionalDocsRequest n).data.head? = (gapRequest g).data.head? := by rw [hgr]
      rw [additionalDocsRequest_head, gapRequest_head] at this
      exact absurd this (by decide)

/-- Witness for C6 at a concrete single-document activation report. -/
theorem single_document_no_cross_source_shortfall_witness :
    (superBrainAssessEvidenceCompleteness "compare the plans" [chunkA] none
        { totalDocuments := 1 } {}).requiredDocs = 1 ∧
    (∀ a b : Nat, crossSourceReason a b ∉
      (superBrainAssessEvidenceCompleteness "compare the plans" [chunkA] none
        { totalDocuments := 1 } {}).reasons) ∧
    (∀ n : Nat, additionalDocsRequest n ∉
      (superBrainAssessEvidenceCompleteness "compare the plans" [chunkA] none
        { totalDocuments := 1 } {}).requestedDocuments) :=
  single_document_no_cross_source_shortfall "compare the plans" [chunkA] none
    { totalDocuments := 1 } {} rfl

/-- Claim C3: when the chunk lookup is id-consistent (every lookup entry maps
an id to a chunk carrying that id, the data-model invariant of the corpus
index), no chunk returned by the concept-bridge expander has an id equal to
the id of any seed chunk. -/
theorem bridge_expansion_excludes_seeds (r : Retriever)
    (hLookup : ∀ m, r.chunkLookup = some m → ∀ p ∈ m, (p.2).id = p.1)
    (seedChunks : List Chunk) (query : String) (limit : Nat) :
    ∀ c ∈ expandImplicitConceptLinks r seedChunks query limit,
      ∀ s ∈ seedChunks, c.id ≠ s.id := by
  intro c hc s hs
  rw [expandImplicitConceptLinks] at hc
  split at hc
  · simp at hc
  · dsimp only at hc
    replace hc := List.take_subset _ _ hc
    replace hc := mem_of_mem_uniqBy hc
    replace hc := mem_sortBy.mp hc
    rw [mem_foldl_append] at hc
    rcases hc with h0 | ⟨entry, _, hentry⟩
    · simp at h0
    · rw [bridgeCandidatesFor] at hentry
      split at hentry
      · simp at hentry
      · rename_i chunkIds hids
        rcases List.mem_filterMap.mp hentry with ⟨cid, _, hsome⟩
        split at hsome
        · exact absurd hsome (by simp)
        · rename_i hnotseed
          split at hsome
          · simp at hsome
          · rename_i base hbase
            have hcrec : c = { base with
                score := relScore r base query (tokensOf r query) (entitiesOf r query)
                  (conceptsOf r query) * 0.72 + min entry.2 5 * 0.08,
                bridgeConcept := some entry.1 } := (Option.some_inj.mp hsome).symm
            cases hcl : r.chunkLookup with
            | none => rw [chunkLookupGet, hcl] at hbase; simp at hbase
            | some m =>
              rw [chunkLookupGet, hcl] at hbase
              have hid : base.id = cid := hLookup m hcl (cid, base) (assocGet_mem hbase)
              have hcid : c.id = cid := by rw [hcrec]; exact hid
              intro heq
              apply hnotseed
              rw [← hcid, heq]
              exact List.mem_map_of_mem Chunk.id hs

/-- Witness for C3 at a concrete id-consistent retriever state: the bridge
walk from seed chunkA reaches the scored copy of chunkB, whose id differs
from the seed id. -/
theorem bridge_expansion_excludes_seeds_witness :
    ({ chunkB with score := (0.036 : ℚ), bridgeConcept := some "alpha" } : Chunk) ∈
        expandImplicitConceptLinks rBridge [chunkA] "q" 5 ∧
      ({ chunkB with score := (0.036 : ℚ), bridgeConcept := some "alpha" } : Chunk).id ≠
        chunkA.id :=
  ⟨by decide,
    bridge_expansion_excludes_seeds rBridge
      (by
        intro m h
        rw [show rBridge.chunkLookup = some [(some "b", chunkB)] from rfl] at h
        obtain rfl := Option.some_inj.mp h
        decide)
      [chunkA] "q" 5
      { chunkB with score := (0.036 : ℚ), bridgeConcept := some "alpha" } (by decide)
      chunkA (by decide)⟩

/-! ## Lemmas for the adversarial pass -/

/-- Anchor-sampler outputs always carry an id (they pass through uniqBy on id). -/
theorem anchors_id_ne_none {r : Retriever} {q : String} {intent : Intent} {c : Chunk}
    (hmem : c ∈ getDocumentAnchors r q intent) : c.id ≠ none := by
  rw [getDocumentAnchors] at hmem
  split at hmem
  · simp at hmem
  · exact key_ne_none_of_mem_uniqBy hmem

theorem take_pos_ne_nil {α : Type} {l : List α} (h : l ≠ []) {n : Nat} (hn : 0 < n) :
    l.take n ≠ [] := by
  cases l with
  | nil => exact absurd rfl h
  | cons a as =>
    cases n with
    | zero => exact absurd hn (by decide)
    | succ m => simp

theorem descScoreLe_total : ∀ a b : Chunk, descScoreLe a b = true ∨ descScoreLe b a = true := by
  intro a b
  simp only [descScoreLe, decide_eq_true_eq]
  exact le_total b.score a.score

theorem descScoreLe_trans : ∀ a b c : Chunk,
    descScoreLe a b = true → descScoreLe b c = true → descScoreLe a c = true := by
  intro a b c h1 h2
  simp only [descScoreLe, decide_eq_true_eq] at h1 h2 ⊢
  exact le_trans h2 h1

/-- The chunks retrieved by one adversarial probe (with failure recovery)
all carry ids when the base retriever only returns id-bearing chunks. -/
theorem adversarialRetrieved_ids {f : BaseRetrieve}
    (hBase : ∀ q k o l, f q k o = Except.ok l → ∀ c ∈ l, c.id ≠ none)
    (probe : String) (k : Nat) (o : RetrievalOptions) :
    ∀ c ∈ (match f probe k o with
           | Except.ok l => l
           | Except.error _ => ([] : List Chunk)), c.id ≠ none := by
  cases h : f probe k o with
  | ok l => exact hBase probe k o l h
  | error e => simp

/-- Every chunk aggregated by the adversarial loop carries an id, provided
the external merge helper selects from its inputs and the base retriever
returns id-bearing chunks. -/
theorem adversarialLoop_ids (r : Retriever) (query : String) (options : RetrievalOptions)
    (intent : Intent) (f : BaseRetrieve) (qt qe qc : List String)
    (hMerge : ∀ m, r.mergeUniqueChunksFn = some m → ∀ a b n c, c ∈ m a b n → c ∈ a ∨ c ∈ b)
    (hBase : ∀ q k o l, f q k o = Except.ok l → ∀ c ∈ l, c.id ≠ none)
    (probes : List String) (passes : Nat) (agg : List Chunk)
    (hagg : ∀ c ∈ agg, c.id ≠ none) :
    ∀ c ∈ (adversarialLoop r query options intent f qt qe qc probes passes agg).2,
      c.id ≠ none := by
  induction probes generalizing passes agg with
  | nil => exact hagg
  | cons probe rest ih =>
    rw [adversarialLoop]
    split
    · exact hagg
    · dsimp only
      refine ih _ _ ?_
      intro c hc
      have hscored : ∀ c2 ∈ adversarialScoreProbe r query probe qt qe qc
          (adversarialMergeProbe r
            (match f probe (max DEFAULT_TARGET_K_SMALL 18)
              { options with
                intent := some { intent with broadCoverage := true, comparative := true } } with
             | Except.ok l => l
             | Except.error _ => [])
            (getDocumentAnchors r probe
              { intent with broadCoverage := true, comparative := true })), c2.id ≠ none := by
        intro c2 hc2
        rw [adversarialScoreProbe] at hc2
        replace hc2 := mem_sortBy.mp hc2
        rcases List.mem_map.mp hc2 with ⟨c0, hc0, hc0eq⟩
        have hc0id : c0.id ≠ none := by
          rw [adversarialMergeProbe] at hc0
          rcases hm : r.mergeUniqueChunksFn with _ | m
          · rw [hm] at hc0
            exact key_ne_none_of_mem_uniqBy hc0
          · rw [hm] at hc0
            rcases hMerge m hm _ _ _ _ hc0 with hret | hanch
            · exact adversarialRetrieved_ids hBase probe _ _ c0 hret
            · exact anchors_id_ne_none hanch
        rw [← hc0eq]
        exact hc0id
      rw [adversarialAccMerge] at hc
      rcases hm : r.mergeUniqueChunksFn with _ | m
      · rw [hm] at hc
        exact key_ne_none_of_mem_uniqBy hc
      · rw [hm] at hc
        rcases hMerge m hm _ _ _ _ hc with hold | hnew
        · exact hagg c hold
        · exact hscored c hnew

/-- In a list sorted descending by score, the id-dedup keeps for each present
key a representative scoring at least as much as any element carrying that
key (the first occurrence is the highest-scoring one). -/
theorem uniqByAux_key_dominates (seen : List String) (l : List Chunk) :
    l.Pairwise (fun a b => b.score ≤ a.score) →
    ∀ c ∈ l, ∀ k, c.id = some k → k ∉ seen →
      ∃ d ∈ uniqByAux Chunk.id seen l, d.id = some k ∧ c.score ≤ d.score := by
  induction l generalizing seen with
  | nil =>
    intro _ c hc
    exact absurd hc (by simp)
  | cons z zs ih =>
    intro hp c hc k hk hks
    rw [List.pairwise_cons] at hp
    rw [uniqByAux]
    rcases List.mem_cons.mp hc with rfl | hczs
    · split
      · rename_i h
        rw [hk] at h
        exact Option.noConfusion h
      · rename_i k2 h
        rw [hk] at h
        obtain rfl := Option.some_inj.mp h
        rw [if_neg hks]
        exact ⟨c, List.mem_cons_self _ _, hk, le_refl _⟩
    · split
      · exact ih seen hp.2 c hczs k hk hks
      · rename_i k2 h
        by_cases hk2 : k2 ∈ seen
        · rw [if_pos hk2]
          exact ih seen hp.2 c hczs k hk hks
        · rw [if_neg hk2]
          by_cases hkk : k2 = k
          · subst hkk
            exact ⟨z, List.mem_cons_self _ _, h, hp.1 c hczs⟩
          · have hks2 : k ∉ k2 :: seen := by
              intro hcon
              rcases List.mem_cons.mp hcon with rfl | hmem
              · exact hkk rfl
              · exact hks hmem
            obtain ⟨d, hd, hdk, hds⟩ := ih (k2 :: seen) hp.2 c hczs k hk hks2
            exact ⟨d, List.mem_cons_of_mem z hd, hdk, hds⟩

/-- An element of a Pairwise-ordered list either survives a take or the take
is full of elements that dominate it. -/
theorem mem_take_or_full {α : Type} {P : α → α → Prop} :
    ∀ (l : List α) (n : Nat) (x : α), x ∈ l → l.Pairwise P →
      x ∈ l.take n ∨ ((l.take n).length = n ∧ ∀ y ∈ l.take n, P y x) := by
  intro l
  induction l with
  | nil =>
    intro n x hx
    exact absurd hx (by simp)
  | cons z zs ih =>
    intro n x hx hp
    cases n with
    | zero =>
      right
      exact ⟨rfl, by simp⟩
    | succ m =>
      rw [List.take_succ_cons]
      rw [List.pairwise_cons] at hp
      rcases List.mem_cons.mp hx with rfl | hxzs
      · left
        exact List.mem_cons_self _ _
      · rcases ih m x hxzs hp.2 with h | ⟨hlen, hall⟩
        · left
          exact List.mem_cons_of_mem z h
        · right
          refine ⟨by simp [hlen], ?_⟩
          intro y hy
          rcases List.mem_cons.mp hy with rfl | hyt
          · exact hp.1 x hxzs
          · exact hall y hyt

/-- Every chunk aggregated by the adversarial loop belongs to the aggregate's
provenance; in particular the loop only extends membership through the
scored probes. -/
theorem adversarialSelect_cases (aggregated : List Chunk) :
    adversarialSelect aggregated =
      (if !(uniqBy (sortBy leSignalScore (aggregated.filter
            (fun c => decide (0 < jsOrZ c.adversarialSignal)))) Chunk.id).isEmpty
       then (uniqBy (sortBy leSignalScore (aggregated.filter
            (fun c => decide (0 < jsOrZ c.adversarialSignal)))) Chunk.id).take
          MAX_ADVERSARIAL_CHUNKS
       else (uniqBy (sortBy descScoreLe aggregated) Chunk.id).take
          (min MAX_ADVERSARIAL_CHUNKS 8)) := rfl

/-- Claim C7: whenever the aggregated adversarial candidate set is non-empty
(and the base retriever and merge helper are well-behaved: id-bearing output,
input-selecting merge), the adversarial pass returns a non-empty list of at
most MAX_ADVERSARIAL_CHUNKS chunks; chunks with positive contradiction signal
are selected in preference to all others, and when no candidate has positive
signal the highest-lexical-score candidates are returned, sorted by score
descending, under the smaller cap of 8: every aggregated candidate is either
represented in the result by a same-id chunk scoring at least as much, or the
8-slot cap is full and every returned chunk scores at least as much as it. -/
theorem adversarial_selection_spec (r : Retriever) (query : String) (seedChunks : List Chunk)
    (options : RetrievalOptions) (intent : Intent) (f : BaseRetrieve)
    (hMerge : ∀ m, r.mergeUniqueChunksFn = some m → ∀ a b n c, c ∈ m a b n → c ∈ a ∨ c ∈ b)
    (hBase : ∀ q k o l, f q k o = Except.ok l → ∀ c ∈ l, c.id ≠ none)
    (hne : (adversarialAggregated r query seedChunks options intent f).2 ≠ []) :
    (superBrainRunAdversarialRetrieval r query seedChunks options intent (some f)).chunks ≠ [] ∧
    (superBrainRunAdversarialRetrieval r query seedChunks options intent
        (some f)).chunks.length ≤ MAX_ADVERSARIAL_CHUNKS ∧
    ((∃ c ∈ (adversarialAggregated r query seedChunks options intent f).2,
        0 < jsOrZ c.adversarialSignal) →
      ∀ c ∈ (superBrainRunAdversarialRetrieval r query seedChunks options intent
        (some f)).chunks, 0 < jsOrZ c.adversarialSignal) ∧
    ((∀ c ∈ (adversarialAggregated r query seedChunks options intent f).2,
        jsOrZ c.adversarialSignal ≤ 0) →
      (superBrainRunAdversarialRetrieval r query seedChunks options intent
          (some f)).chunks.length ≤ 8 ∧
        (superBrainRunAdversarialRetrieval r query seedChunks options intent
          (some f)).chunks.Pairwise (fun a b => b.score ≤ a.score) ∧
        (∀ c ∈ (superBrainRunAdversarialRetrieval r query seedChunks options intent
          (some f)).chunks,
          c ∈ (adversarialAggregated r query seedChunks options intent f).2) ∧
        ∀ c ∈ (adversarialAggregated r query seedChunks options intent f).2,
          (∃ c2 ∈ (superBrainRunAdversarialRetrieval r query seedChunks options intent
              (some f)).chunks, c2.id = c.id ∧ c.score ≤ c2.score) ∨
            ((superBrainRunAdversarialRetrieval r query seedChunks options intent
                (some f)).chunks.length = 8 ∧
              ∀ c2 ∈ (superBrainRunAdversarialRetrieval r query seedChunks options intent
                (some f)).chunks, c.score ≤ c2.score)) := by
  have hids : ∀ c ∈ (adversarialAggregated r query seedChunks options intent f).2,
      c.id ≠ none :=
    adversarialLoop_ids r query options intent f (tokensOf r query) (entitiesOf r query)
      (conceptsOf r query) hMerge hBase
      (adversarialProbesOf r query seedChunks options intent) 0 [] (by simp)
  have hchunks : (superBrainRunAdversarialRetrieval r query seedChunks options intent
      (some f)).chunks = adversarialSelect (adversarialAggregated r query seedChunks
      options intent f).2 := rfl
  rw [hchunks, adversarialSelect_cases]
  set agg := (adversarialAggregated r query seedChunks options intent f).2 with hagg
  set filt := agg.filter (fun c => decide (0 < jsOrZ c.adversarialSignal)) with hfilt
  set prioritized := uniqBy (sortBy leSignalScore filt) Chunk.id with hprio
  by_cases hpe : prioritized.isEmpty
  · rw [if_neg (by simp [hpe])]
    have hfallne : uniqBy (sortBy descScoreLe agg) Chunk.id ≠ [] :=
      uniqByAux_ne_nil (sortBy_ne_nil descScoreLe hne)
        (fun c hc => hids c (mem_sortBy.mp hc))
    refine ⟨take_pos_ne_nil hfallne (by decide), ?_, ?_, ?_⟩
    · calc ((uniqBy (sortBy descScoreLe agg) Chunk.id).take
            (min MAX_ADVERSARIAL_CHUNKS 8)).length ≤ min MAX_ADVERSARIAL_CHUNKS 8 :=
          List.length_take_le _ _
        _ ≤ MAX_ADVERSARIAL_CHUNKS := by decide
    · rintro ⟨c0, hc0, hpos⟩
      exfalso
      have : c0 ∈ filt := List.mem_filter.mpr ⟨hc0, by simpa using hpos⟩
      have hpne : prioritized ≠ [] := by
        rw [hprio]
        refine uniqByAux_ne_nil (sortBy_ne_nil leSignalScore ?_)
          (fun c hc => hids c (List.mem_of_mem_filter (mem_sortBy.mp hc)))
        intro hcon
        rw [hcon] at this
        simp at this
      exact hpne (List.isEmpty_iff.mp hpe)
    · intro _
      have hsorted := sortBy_pairwise descScoreLe_total descScoreLe_trans agg
      have hsorted2 : (sortBy descScoreLe agg).Pairwise (fun a b => b.score ≤ a.score) :=
        hsorted.imp (fun h => by simpa [descScoreLe] using h)
      have hDp : (uniqBy (sortBy descScoreLe agg) Chunk.id).Pairwise
          (fun a b => b.score ≤ a.score) :=
        List.Pairwise.sublist (uniqByAux_sublist _ _ _) hsorted2
      refine ⟨List.length_take_le _ _, ?_, ?_, ?_⟩
      · exact List.Pairwise.sublist (List.take_sublist (min MAX_ADVERSARIAL_CHUNKS 8) _) hDp
      · intro c hc
        exact mem_sortBy.mp (mem_of_mem_uniqBy (List.take_subset _ _ hc))
      · intro c hcagg
        have hcs : c ∈ sortBy descScoreLe agg := mem_sortBy.mpr hcagg
        cases hcid : c.id with
        | none => exact absurd hcid (hids c hcagg)
        | some k =>
          obtain ⟨d, hd, hdk, hds⟩ := uniqByAux_key_dominates [] (sortBy descScoreLe agg)
            hsorted2 c hcs k hcid (by simp)
          rcases mem_take_or_full (uniqBy (sortBy descScoreLe agg) Chunk.id)
              (min MAX_ADVERSARIAL_CHUNKS 8) d hd hDp with hin | ⟨hlen, hall⟩
          · left
            refine ⟨d, hin, ?_, hds⟩
            rw [hdk]
          · right
            refine ⟨by rw [hlen]; decide, ?_⟩
            intro c2 hc2
            exact le_trans hds (hall c2 hc2)
  · rw [if_pos (by simp [hpe])]
    have hpne : prioritized ≠ [] := fun hcon => by simp [hcon] at hpe
    have hsub : ∀ c ∈ prioritized.take MAX_ADVERSARIAL_CHUNKS, c ∈ filt := by
      intro c hc
      exact mem_sortBy.mp (mem_of_mem_uniqBy (List.take_subset _ _ hc))
    refine ⟨take_pos_ne_nil hpne (by decide), List.length_take_le _ _, ?_, ?_⟩
    · intro _ c hc
      have := List.mem_filter.mp (hsub c hc)
      simpa using this.2
    · intro hnone
      exfalso
      have hfe : filt = [] := by
        rw [hfilt]
        refine List.filter_eq_nil_iff.mpr ?_
        intro c hc
        simpa using not_lt.mpr (hnone c hc)
      apply hpne
      rw [hprio, hfe]
      rfl

/-- Witness for C7 on a concrete one-document corpus with a base retriever
returning no chunks: the anchors make the aggregate non-empty, so the theorem
applies with every hypothesis discharged at this input. -/
theorem adversarial_selection_spec_witness :
    (adversarialAggregated rOneDoc "q" [] {} {} emptyRetrieve).2 ≠ [] ∧
    ((superBrainRunAdversarialRetrieval rOneDoc "q" [] {} {} (some emptyRetrieve)).chunks ≠ [] ∧
     (superBrainRunAdversarialRetrieval rOneDoc "q" [] {} {}
        (some emptyRetrieve)).chunks.length ≤ MAX_ADVERSARIAL_CHUNKS ∧
     ((∃ c ∈ (adversarialAggregated rOneDoc "q" [] {} {} emptyRetrieve).2,
         0 < jsOrZ c.adversarialSignal) →
       ∀ c ∈ (superBrainRunAdversarialRetrieval rOneDoc "q" [] {} {}
         (some emptyRetrieve)).chunks, 0 < jsOrZ c.adversarialSignal) ∧
     ((∀ c ∈ (adversarialAggregated rOneDoc "q" [] {} {} emptyRetrieve).2,
         jsOrZ c.adversarialSignal ≤ 0) →
       (superBrainRunAdversarialRetrieval rOneDoc "q" [] {} {}
           (some emptyRetrieve)).chunks.length ≤ 8 ∧
         (superBrainRunAdversarialRetrieval rOneDoc "q" [] {} {}
           (some emptyRetrieve)).chunks.Pairwise (fun a b => b.score ≤ a.score) ∧
         (∀ c ∈ (superBrainRunAdversarialRetrieval rOneDoc "q" [] {} {}
           (some emptyRetrieve)).chunks,
           c ∈ (adversarialAggregated rOneDoc "q" [] {} {} emptyRetrieve).2) ∧
         ∀ c ∈ (adversarialAggregated rOneDoc "q" [] {} {} emptyRetrieve).2,
           (∃ c2 ∈ (superBrainRunAdversarialRetrieval rOneDoc "q" [] {} {}
               (some emptyRetrieve)).chunks, c2.id = c.id ∧ c.score ≤ c2.score) ∨
             ((superBrainRunAdversarialRetrieval rOneDoc "q" [] {} {}
                 (some emptyRetrieve)).chunks.length = 8 ∧
               ∀ c2 ∈ (superBrainRunAdversarialRetrieval rOneDoc "q" [] {} {}
                 (some emptyRetrieve)).chunks, c.score ≤ c2.score))) :=
  ⟨by decide,
    adversarial_selection_spec rOneDoc "q" [] {} {} emptyRetrieve
      (fun m h => nomatch h)
      (by
        intro q k o l h c hc
        rw [show emptyRetrieve q k o = Except.ok [] from rfl] at h
        injection h with h2
        rw [← h2] at hc
        simp at hc)
      (by decide)⟩

/-! ## Lemmas for the no-duplication claim -/

theorem truthyStr_ne_none {o : Option String} (h : truthyStr o = true) : o ≠ none := by
  cases o with
  | none => simp [truthyStr] at h
  | some s => simp

theorem nodup_map_take {α β : Type} (f : α → β) (l : List α) (n : Nat)
    (h : (l.map f).Nodup) : ((l.take n).map f).Nodup := by
  rw [List.map_take]
  exact List.Nodup.sublist (List.take_sublist n _) h

theorem ite_nodup_ids {P : Prop} [Decidable P] {a b : List Chunk}
    (ha : (a.map Chunk.id).Nodup) (hb : (b.map Chunk.id).Nodup) :
    (((if P then a else b).map Chunk.id)).Nodup := by
  split
  · exact ha
  · exact hb

/-- The per-document anchors are corpus chunks (possibly score-updated), so
they respect the corpus naming function. -/
theorem anchorsForDoc_ok (fn : String → Option String) (r : Retriever) {origF : BaseRetrieve}
    (H : CorpusCoherent fn r origF) (q : String) (intent : Intent)
    (tokens entities concepts : List String) {doc : Document} (hdoc : doc ∈ r.documents) :
    ∀ c ∈ anchorsForDoc r q intent tokens entities concepts doc, ChunkIdFile fn c := by
  intro c hc
  have hchunksOk : ∀ c2 ∈ doc.chunks.map (fun c0 =>
      match r.chunkLookup with
      | none => c0
      | some m => (assocGet m c0.id).getD c0), ChunkIdFile fn c2 := by
    intro c2 hc2
    rcases List.mem_map.mp hc2 with ⟨c0, hc0, hc0eq⟩
    split at hc0eq
    · rw [← hc0eq]
      exact H.docsOk doc hdoc c0 hc0
    · rename_i m hm
      cases hg : assocGet m c0.id with
      | none =>
        rw [hg] at hc0eq
        simp only [Option.getD_none] at hc0eq
        rw [← hc0eq]
        exact H.docsOk doc hdoc c0 hc0
      | some cl =>
        rw [hg] at hc0eq
        simp only [Option.getD_some] at hc0eq
        rw [← hc0eq]
        exact H.lookupOk m hm (c0.id, cl) (assocGet_mem hg)
  rw [anchorsForDoc] at hc
  dsimp only at hc
  split at hc
  · simp at hc
  · rcases List.mem_append.mp hc with hsc | hdist
    · have h1 := mem_sortBy.mp (List.take_subset _ _ hsc)
      rcases List.mem_map.mp h1 with ⟨c0, hc0, hc0eq⟩
      have hok := hchunksOk c0 hc0
      rw [← hc0eq]
      exact hok
    · cases hp : r.pickEvenlyDistributedFn with
      | some p =>
        rw [hp] at hdist
        exact hchunksOk c (mem_sortBy.mp (H.pickSub p hp _ _ _ hdist))
      | none =>
        rw [hp] at hdist
        exact hchunksOk c (mem_sortBy.mp (List.take_subset _ _ hdist))

/-- Anchor outputs respect the corpus naming function. -/
theorem getDocumentAnchors_ok (fn : String → Option String) (r : Retriever)
    {origF : BaseRetrieve} (H : CorpusCoherent fn r origF) (q : String) (intent : Intent) :
    ∀ c ∈ getDocumentAnchors r q intent, ChunkIdFile fn c := by
  intro c hc
  rw [getDocumentAnchors] at hc
  split at hc
  · simp at hc
  · dsimp only at hc
    replace hc := mem_of_mem_uniqBy hc
    rw [mem_foldl_append] at hc
    rcases hc with h0 | ⟨doc, hdoc, hmem⟩
    · simp at h0
    · exact anchorsForDoc_ok fn r H q intent _ _ _ hdoc c hmem

/-- Bridge-expansion outputs come from the chunk lookup, so they respect the
corpus naming function. -/
theorem expandImplicitConceptLinks_ok (fn : String → Option String) (r : Retriever)
    {origF : BaseRetrieve} (H : CorpusCoherent fn r origF) (seedChunks : List Chunk)
    (query : String) (limit : Nat) :
    ∀ c ∈ expandImplicitConceptLinks r seedChunks query limit, ChunkIdFile fn c := by
  intro c hc
  rw [expandImplicitConceptLinks] at hc
  split at hc
  · simp at hc
  · dsimp only at hc
    replace hc := mem_sortBy.mp (mem_of_mem_uniqBy (List.take_subset _ _ hc))
    rw [mem_foldl_append] at hc
    rcases hc with h0 | ⟨entry, _, hentry⟩
    · simp at h0
    · rw [bridgeCandidatesFor] at hentry
      split at hentry
      · simp at hentry
      · rcases List.mem_filterMap.mp hentry with ⟨cid, _, hsome⟩
        split at hsome
        · exact absurd hsome (by simp)
        · split at hsome
          · simp at hsome
          · rename_i base hbase
            have hcrec := (Option.some_inj.mp hsome).symm
            cases hcl : r.chunkLookup with
            | none => rw [chunkLookupGet, hcl] at hbase; simp at hbase
            | some m =>
              rw [chunkLookupGet, hcl] at hbase
              have hok : ChunkIdFile fn base := H.lookupOk m hcl (cid, base) (assocGet_mem hbase)
              rw [hcrec]
              exact hok

/-- One refinement pass only merges base results, anchors and bridge links
into the accumulator, so corpus coherence is preserved. -/
theorem refineStepMerged_ok (fn : String → Option String) (r : Retriever) (origF : BaseRetrieve)
    (H : CorpusCoherent fn r origF) (topK : Nat) (options : RetrievalOptions) (intent : Intent)
    (probe : String) (merged0 : List Chunk) (h0 : ∀ c ∈ merged0, ChunkIdFile fn c) :
    ∀ c ∈ refineStepMerged r topK options intent origF probe merged0, ChunkIdFile fn c := by
  intro c hc
  rw [refineStepMerged] at hc
  have hpass : ∀ c2 ∈ (match origF probe (max 18 ((4 * topK + 4) / 5))
      { options with intent := some { intent with broadCoverage := true } } with
      | Except.ok l => l
      | Except.error _ => ([] : List Chunk)), ChunkIdFile fn c2 := by
    cases hf : origF probe (max 18 ((4 * topK + 4) / 5))
        { options with intent := some { intent with broadCoverage := true } } with
    | ok l => exact H.baseOk _ _ _ l hf
    | error e => simp
  have hanch := getDocumentAnchors_ok fn r H probe { intent with broadCoverage := true }
  have hlinks : ∀ c2 ∈ expandImplicitConceptLinks r
      (match origF probe (max 18 ((4 * topK + 4) / 5))
        { options with intent := some { intent with broadCoverage := true } } with
        | Except.ok l => l
        | Except.error _ => ([] : List Chunk))
      probe (max 8 (4 * MAX_LINK_EXPANSION / 5)), ChunkIdFile fn c2 :=
    expandImplicitConceptLinks_ok fn r H _ probe _
  have hprobe : ∀ c2 ∈ refineProbeMerge r
      (match origF probe (max 18 ((4 * topK + 4) / 5))
        { options with intent := some { intent with broadCoverage := true } } with
        | Except.ok l => l
        | Except.error _ => ([] : List Chunk))
      (getDocumentAnchors r probe { intent with broadCoverage := true })
      (expandImplicitConceptLinks r
        (match origF probe (max 18 ((4 * topK + 4) / 5))
          { options with intent := some { intent with broadCoverage := true } } with
          | Except.ok l => l
          | Except.error _ => ([] : List Chunk))
        probe (max 8 (4 * MAX_LINK_EXPANSION / 5))) topK, ChunkIdFile fn c2 := by
    intro c2 hc2
    rw [refineProbeMerge] at hc2
    split at hc2
    · rename_i m hm
      rcases H.mergeSub m hm _ _ _ _ hc2 with hin | hlink
      · rcases H.mergeSub m hm _ _ _ _ hin with hb | ha
        · exact hpass c2 hb
        · exact hanch c2 ha
      · exact hlinks c2 hlink
    · replace hc2 := mem_of_mem_uniqBy hc2
      rcases List.mem_append.mp hc2 with h | hlink
      · rcases List.mem_append.mp h with hb | ha
        · exact hpass c2 hb
        · exact hanch c2 ha
      · exact hlinks c2 hlink
  rw [refineAccMerge] at hc
  split at hc
  · rename_i m hm
    rcases H.mergeSub m hm _ _ _ _ hc with hold | hnew
    · exact h0 c hold
    · exact hprobe c hnew
  · replace hc := mem_of_mem_uniqBy hc
    rcases List.mem_append.mp hc with hold | hnew
    · exact h0 c hold
    · exact hprobe c hnew

/-- The refinement loop preserves corpus coherence of the accumulator. -/
theorem refineLoop_ok (fn : String → Option String) (r : Retriever) (origF : BaseRetrieve)
    (H : CorpusCoherent fn r origF) (topK : Nat) (options : RetrievalOptions) (intent : Intent)
    (probes : List String) (st : RefineState) (h0 : ∀ c ∈ st.merged, ChunkIdFile fn c) :
    ∀ c ∈ (refineLoop r topK options intent origF probes st).merged, ChunkIdFile fn c := by
  induction probes generalizing st with
  | nil => exact h0
  | cons p rest ih =>
    rw [refineLoop]
    split
    · exact h0
    · dsimp only
      have hstep : ∀ c ∈ (refineStep r topK options intent origF p st).merged,
          ChunkIdFile fn c :=
        refineStepMerged_ok fn r origF H topK options intent p st.merged h0
      split
      · exact hstep
      · exact ih _ hstep

/-- The chunks returned by the refinement entry point respect the corpus
naming function whenever its seed does. -/
theorem refinement_ok (fn : String → Option String) (r : Retriever) (origF : BaseRetrieve)
    (H : CorpusCoherent fn r origF) (query : String) (seedChunks : List Chunk) (topK : Nat)
    (options : RetrievalOptions) (intent : Intent)
    (h0 : ∀ c ∈ seedChunks, ChunkIdFile fn c) :
    ∀ c ∈ (superBrainRunRetrievalRefinement r query seedChunks topK options intent
      (some origF)).chunks, ChunkIdFile fn c :=
  refineLoop_ok fn r origF H topK options intent _ _ h0

/-- Invariants of the first enforceDocumentCoverage anchor loop: distinct ids
persist because, under the corpus naming function, a duplicate id would force
a duplicate filename already counted in the seen set. -/
theorem coverLoop1_inv (fn : String → Option String) (topK targetDocs : Nat)
    (anchors : List Chunk) (out : List Chunk) (seen : List (Option String))
    (hnd : (out.map Chunk.id).Nodup)
    (hne : ∀ c ∈ out, c.id ≠ none)
    (hok : ∀ c ∈ out, ChunkIdFile fn c)
    (hseen : ∀ c ∈ out, c.filename ∈ seen)
    (hane : ∀ a ∈ anchors, a.id ≠ none)
    (haok : ∀ a ∈ anchors, ChunkIdFile fn a) :
    (((coverLoop1 topK targetDocs anchors out seen).1.map Chunk.id).Nodup ∧
      ∀ c ∈ (coverLoop1 topK targetDocs anchors out seen).1, c.id ≠ none) := by
  induction anchors generalizing out seen with
  | nil => exact ⟨hnd, hne⟩
  | cons a rest ih =>
    rw [coverLoop1]
    split
    · exact ⟨hnd, hne⟩
    · split
      · exact ih out seen hnd hne hok hseen
          (fun x hx => hane x (List.mem_cons_of_mem a hx))
          (fun x hx => haok x (List.mem_cons_of_mem a hx))
      · rename_i hfn
        have haid := hane a (List.mem_cons_self a rest)
        have hfresh : a.id ∉ out.map Chunk.id := by
          intro hmem
          rcases List.mem_map.mp hmem with ⟨c0, hc0, hc0eq⟩
          cases hk : a.id with
          | none => exact haid hk
          | some k =>
            have hcf : c0.filename = fn k := hok c0 hc0 k (by rw [hc0eq, hk])
            have haf : a.filename = fn k := haok a (List.mem_cons_self a rest) k hk
            apply hfn
            rw [haf, ← hcf]
            exact hseen c0 hc0
        have hnd2 : ((out ++ [a]).map Chunk.id).Nodup := by
          rw [List.map_append]
          refine List.Nodup.append hnd (by simp) ?_
          intro x hx hxa
          have hxe : x = a.id := by simpa using hxa
          rw [hxe] at hx
          exact hfresh hx
        have hne2 : ∀ c ∈ out ++ [a], c.id ≠ none := by
          intro c hc
          rcases List.mem_append.mp hc with h | h
          · exact hne c h
          · rw [List.mem_singleton.mp h]
            exact haid
        have hok2 : ∀ c ∈ out ++ [a], ChunkIdFile fn c := by
          intro c hc
          rcases List.mem_append.mp hc with h | h
          · exact hok c h
          · rw [List.mem_singleton.mp h]
            exact haok a (List.mem_cons_self a rest)
        have hseen2 : ∀ c ∈ out ++ [a], c.filename ∈ seen ++ [a.filename] := by
          intro c hc
          rcases List.mem_append.mp hc with h | h
          · exact List.mem_append_left _ (hseen c h)
          · rw [List.mem_singleton.mp h]
            exact List.mem_append_right _ (List.mem_singleton.mpr rfl)
        dsimp only
        split
        · exact ⟨hnd2, hne2⟩
        · exact ih (out ++ [a]) (seen ++ [a.filename]) hnd2 hne2 hok2 hseen2
            (fun x hx => hane x (List.mem_cons_of_mem a hx))
            (fun x hx => haok x (List.mem_cons_of_mem a hx))

/-- Invariants of the second enforceDocumentCoverage anchor loop: it checks
ids explicitly before pushing. -/
theorem coverLoop2_inv (topK : Nat) (anchors out : List Chunk)
    (hnd : (out.map Chunk.id).Nodup)
    (hne : ∀ c ∈ out, c.id ≠ none)
    (hane : ∀ a ∈ anchors, a.id ≠ none) :
    (((coverLoop2 topK anchors out).map Chunk.id).Nodup ∧
      ∀ c ∈ coverLoop2 topK anchors out, c.id ≠ none) := by
  induction anchors generalizing out with
  | nil => exact ⟨hnd, hne⟩
  | cons a rest ih =>
    rw [coverLoop2]
    split
    · exact ⟨hnd, hne⟩
    · split
      · exact ih out hnd hne (fun x hx => hane x (List.mem_cons_of_mem a hx))
      · rename_i hnotin
        have hfresh : a.id ∉ out.map Chunk.id := by
          intro hmem
          rcases List.mem_map.mp hmem with ⟨c0, hc0, hc0eq⟩
          apply hnotin
          refine List.any_eq_true.mpr ⟨c0, hc0, ?_⟩
          rw [beq_iff_eq]
          exact hc0eq
        have hnd2 : ((out ++ [a]).map Chunk.id).Nodup := by
          rw [List.map_append]
          refine List.Nodup.append hnd (by simp) ?_
          intro x hx hxa
          have hxe : x = a.id := by simpa using hxa
          rw [hxe] at hx
          exact hfresh hx
        have hne2 : ∀ c ∈ out ++ [a], c.id ≠ none := by
          intro c hc
          rcases List.mem_append.mp hc with h | h
          · exact hne c h
          · rw [List.mem_singleton.mp h]
            exact hane a (List.mem_cons_self a rest)
        exact ih (out ++ [a]) hnd2 hne2 (fun x hx => hane x (List.mem_cons_of_mem a hx))

/-- enforceDocumentCoverage returns a list with pairwise-distinct, present
ids, whenever its inputs respect the corpus naming function. -/
theorem enforceDocumentCoverage_nodup (fn : String → Option String) (r : Retriever)
    (results anchors : List Chunk) (topK : Nat)
    (hres : ∀ c ∈ results, ChunkIdFile fn c)
    (hane : ∀ a ∈ anchors, a.id ≠ none)
    (haok : ∀ a ∈ anchors, ChunkIdFile fn a) :
    (((enforceDocumentCoverage r results anchors topK).map Chunk.id).Nodup ∧
      ∀ c ∈ enforceDocumentCoverage r results anchors topK, c.id ≠ none) := by
  rw [enforceDocumentCoverage]
  have h1 := coverLoop1_inv fn topK
    (min r.documents.length
      (max 1 ((7 * jsOrN topK (jsOrN (uniqBy results Chunk.id).length 1) + 9) / 10)))
    anchors (uniqBy results Chunk.id) (jsSet ((uniqBy results Chunk.id).map Chunk.filename))
    (uniqBy_keys_nodup Chunk.id results)
    (fun c hc => key_ne_none_of_mem_uniqBy hc)
    (fun c hc => hres c (mem_of_mem_uniqBy hc))
    (fun c hc => (mem_jsSet _ _).mpr (List.mem_map_of_mem Chunk.filename hc))
    hane haok
  have h2 := coverLoop2_inv topK anchors _ h1.1 h1.2 hane
  exact ⟨nodup_map_take Chunk.id _ _ h2.1,
    fun c hc => h2.2 c (List.take_subset _ _ hc)⟩

/-- The deep-scan inner candidate loop preserves distinct present ids (the
seen set always covers the ids of the output). -/
theorem deepScanInner_inv (targetTopK : Nat) (cands out : List Chunk)
    (seen : List (Option String))
    (hnd : (out.map Chunk.id).Nodup)
    (hne : ∀ c ∈ out, c.id ≠ none)
    (hsub : ∀ c ∈ out, c.id ∈ seen) :
    (((deepScanInner targetTopK cands out seen).1.map Chunk.id).Nodup ∧
      (∀ c ∈ (deepScanInner targetTopK cands out seen).1, c.id ≠ none) ∧
      ∀ c ∈ (deepScanInner targetTopK cands out seen).1,
        c.id ∈ (deepScanInner targetTopK cands out seen).2) := by
  induction cands generalizing out seen with
  | nil => exact ⟨hnd, hne, hsub⟩
  | cons a rest ih =>
    rw [deepScanInner]
    split
    · exact ⟨hnd, hne, hsub⟩
    · split
      · exact ih out seen hnd hne hsub
      · rename_i hguard
        rw [Bool.not_eq_true, Bool.or_eq_false_iff] at hguard
        have htr : truthyStr a.id = true := by
          have := hguard.1
          simpa using this
        have hnot : a.id ∉ seen := by
          have := hguard.2
          simpa using this
        have hfresh : a.id ∉ out.map Chunk.id := by
          intro hmem
          rcases List.mem_map.mp hmem with ⟨c0, hc0, hc0eq⟩
          exact hnot (hc0eq ▸ hsub c0 hc0)
        have hnd2 : ((out ++ [a]).map Chunk.id).Nodup := by
          rw [List.map_append]
          refine List.Nodup.append hnd (by simp) ?_
          intro x hx hxa
          have hxe : x = a.id := by simpa using hxa
          rw [hxe] at hx
          exact hfresh hx
        have hne2 : ∀ c ∈ out ++ [a], c.id ≠ none := by
          intro c hc
          rcases List.mem_append.mp hc with h | h
          · exact hne c h
          · rw [List.mem_singleton.mp h]
            exact truthyStr_ne_none htr
        have hsub2 : ∀ c ∈ out ++ [a], c.id ∈ seen ++ [a.id] := by
          intro c hc
          rcases List.mem_append.mp hc with h | h
          · exact List.mem_append_left _ (hsub c h)
          · rw [List.mem_singleton.mp h]
            exact List.mem_append_right _ (List.mem_singleton.mpr rfl)
        exact ih (out ++ [a]) (seen ++ [a.id]) hnd2 hne2 hsub2

/-- The deep-scan document loop preserves distinct present ids. -/
theorem deepScanDocsLoop_inv (r : Retriever) (query : String) (qt qe qc : List String)
    (targetTopK : Nat) (docNames : List String) (out : List Chunk)
    (seen : List (Option String))
    (hnd : (out.map Chunk.id).Nodup)
    (hne : ∀ c ∈ out, c.id ≠ none)
    (hsub : ∀ c ∈ out, c.id ∈ seen) :
    (((deepScanDocsLoop r query qt qe qc targetTopK docNames out seen).map Chunk.id).Nodup ∧
      ∀ c ∈ deepScanDocsLoop r query qt qe qc targetTopK docNames out seen, c.id ≠ none) := by
  induction docNames generalizing out seen with
  | nil => exact ⟨hnd, hne⟩
  | cons fname rest ih =>
    rw [deepScanDocsLoop]
    have h1 := deepScanInner_inv targetTopK (deepScanCandidates r query qt qe qc fname)
      out seen hnd hne hsub
    split
    · exact ⟨h1.1, h1.2.1⟩
    · exact ih _ _ h1.1 h1.2.1 h1.2.2

/-- superBrainDeepScanAugment keeps ids pairwise distinct and present. -/
theorem deepScanAugment_nodup (r : Retriever) (query : String) (selectedChunks : List Chunk)
    (targetTopK : Nat)
    (hnd : (selectedChunks.map Chunk.id).Nodup)
    (hne : ∀ c ∈ selectedChunks, c.id ≠ none) :
    (((superBrainDeepScanAugment r query selectedChunks targetTopK).map Chunk.id).Nodup ∧
      ∀ c ∈ superBrainDeepScanAugment r query selectedChunks targetTopK, c.id ≠ none) := by
  rw [superBrainDeepScanAugment]
  dsimp only
  split
  · exact ⟨hnd, hne⟩
  · have h1 := deepScanDocsLoop_inv r query (tokensOf r query) (entitiesOf r query)
      (conceptsOf r query) targetTopK
      (uniqBy (selectedChunks.filterMap truthyFilename) (fun s => some s))
      selectedChunks (selectedChunks.map Chunk.id) hnd hne
      (fun c hc => List.mem_map_of_mem Chunk.id hc)
    exact ⟨nodup_map_take Chunk.id _ _ h1.1,
      fun c hc => h1.2 c (List.take_subset _ _ hc)⟩

/-- The cross-source injection loop preserves distinct present ids (it checks
both truthiness and duplication of the id before pushing). -/
theorem crossInjectLoop_inv (targetTopK requiredDocs : Nat) (anchors out : List Chunk)
    (docs : List String)
    (hnd : (out.map Chunk.id).Nodup)
    (hne : ∀ c ∈ out, c.id ≠ none) :
    (((crossInjectLoop targetTopK requiredDocs anchors out docs).map Chunk.id).Nodup ∧
      ∀ c ∈ crossInjectLoop targetTopK requiredDocs anchors out docs, c.id ≠ none) := by
  induction anchors generalizing out docs with
  | nil => exact ⟨hnd, hne⟩
  | cons a rest ih =>
    rw [crossInjectLoop]
    split
    · exact ⟨hnd, hne⟩
    · split
      · exact ih out docs hnd hne
      · rename_i hguard
        split
        · exact ih out docs hnd hne
        · rw [Bool.not_eq_true, Bool.or_eq_false_iff] at hguard
          have htr : truthyStr a.id = true := by
            have := hguard.1
            simpa using this
          have hnotany : ¬ out.any (fun c => c.id == a.id) = true := by
            have := hguard.2
            simp [this]
          have hfresh : a.id ∉ out.map Chunk.id := by
            intro hmem
            rcases List.mem_map.mp hmem with ⟨c0, hc0, hc0eq⟩
            exact hnotany (List.any_eq_true.mpr ⟨c0, hc0, by rw [beq_iff_eq]; exact hc0eq⟩)
          have hnd2 : ((out ++ [a]).map Chunk.id).Nodup := by
            rw [List.map_append]
            refine List.Nodup.append hnd (by simp) ?_
            intro x hx hxa
            have hxe : x = a.id := by simpa using hxa
            rw [hxe] at hx
            exact hfresh hx
          have hne2 : ∀ c ∈ out ++ [a], c.id ≠ none := by
            intro c hc
            rcases List.mem_append.mp hc with h | h
            · exact hne c h
            · rw [List.mem_singleton.mp h]
              exact truthyStr_ne_none htr
          exact ih (out ++ [a]) _ hnd2 hne2

/-- The merge collaborator (or its uniqBy fallback) only selects from its two
inputs. -/
theorem mergeU_sub {fn : String → Option String} {r : Retriever} {origF : BaseRetrieve}
    (H : CorpusCoherent fn r origF) {a b : List Chunk} {n : Nat} {c : Chunk}
    (hc : c ∈ mergeU r a b n) : c ∈ a ∨ c ∈ b := by
  rw [mergeU] at hc
  split at hc
  · rename_i m hm
    exact H.mergeSub m hm a b n c hc
  · exact List.mem_append.mp (mem_of_mem_uniqBy hc)

/-- The sort/diversify/take fallback ranking only selects from its input. -/
theorem rankFallback_sub {fn : String → Option String} {r : Retriever} {origF : BaseRetrieve}
    (H : CorpusCoherent fn r origF) {l : List Chunk} {k : Nat} {c : Chunk}
    (hc : c ∈ rankFallback r l k) : c ∈ l := by
  rw [rankFallback] at hc
  split at hc
  · rename_i d hd
    exact mem_sortBy.mp (H.divSub d hd _ k c hc)
  · exact mem_sortBy.mp (List.take_subset _ _ hc)

/-- The ranking stage only selects from the merged set. -/
theorem rankSelect_sub {fn : String → Option String} {r : Retriever} {origF : BaseRetrieve}
    (H : CorpusCoherent fn r origF) {q : String} {intent : Intent} {l : List Chunk}
    {k : Nat} {c : Chunk} (hc : c ∈ rankSelect r q intent l k) : c ∈ l := by
  rw [rankSelect] at hc
  split at hc
  · split at hc
    · rename_i f hf
      dsimp only at hc
      split at hc
      · exact hc
      · exact H.rerankSub f hf q l k intent c hc
    · exact rankFallback_sub H hc
  · exact rankFallback_sub H hc

/-- The whole post-retrieval pipeline tail yields pairwise-distinct chunk ids
whenever the base chunks belong to the corpus naming function. -/
theorem patchedTail_nodup (fn : String → Option String) (r : Retriever) (origF : BaseRetrieve)
    (H : CorpusCoherent fn r origF) (query retrievalQuery : String) (intent : Intent)
    (targetTopK : Nat) (options : RetrievalOptions) (base : List Chunk)
    (hbase : ∀ c ∈ base, ChunkIdFile fn c) :
    ((patchedTail r query retrievalQuery intent targetTopK options origF base).map
      Chunk.id).Nodup := by
  rw [patchedTail]
  set anchors := getDocumentAnchors r retrievalQuery intent with hA
  set merged0 := mergeU r base anchors (max (targetTopK * 2) 70) with hM0
  set conceptLinked := expandImplicitConceptLinks r merged0 retrievalQuery
    (max 10 ((13 * targetTopK + 19) / 20)) with hCL
  set merged2 := (superBrainRunRetrievalRefinement r retrievalQuery
    (mergeU r merged0 conceptLinked (max (targetTopK * MAX_MERGED_MULTIPLIER) 110))
    targetTopK options intent (some origF)).chunks with hM2
  set ranked := rankSelect r retrievalQuery intent merged2 targetTopK with hR
  set spread := enforceDocumentCoverage r ranked anchors targetTopK with hS
  set out1 := superBrainDeepScanAugment r retrievalQuery (spread.take targetTopK)
    targetTopK with hO1
  have hanch : ∀ c ∈ anchors, ChunkIdFile fn c :=
    getDocumentAnchors_ok fn r H retrievalQuery intent
  have hanchne : ∀ a ∈ anchors, a.id ≠ none := fun a ha => anchors_id_ne_none ha
  have hm0 : ∀ c ∈ merged0, ChunkIdFile fn c := by
    intro c hc
    rcases mergeU_sub H hc with h | h
    · exact hbase c h
    · exact hanch c h
  have hcl : ∀ c ∈ conceptLinked, ChunkIdFile fn c :=
    expandImplicitConceptLinks_ok fn r H merged0 retrievalQuery _
  have hm1 : ∀ c ∈ mergeU r merged0 conceptLinked
      (max (targetTopK * MAX_MERGED_MULTIPLIER) 110), ChunkIdFile fn c := by
    intro c hc
    rcases mergeU_sub H hc with h | h
    · exact hm0 c h
    · exact hcl c h
  have hm2 : ∀ c ∈ merged2, ChunkIdFile fn c :=
    refinement_ok fn r origF H retrievalQuery _ targetTopK options intent hm1
  have hranked : ∀ c ∈ ranked, ChunkIdFile fn c := fun c hc => hm2 c (rankSelect_sub H hc)
  have hspread := enforceDocumentCoverage_nodup fn r ranked anchors targetTopK
    hranked hanchne hanch
  have hout0nd : (((spread.take targetTopK)).map Chunk.id).Nodup :=
    nodup_map_take Chunk.id spread targetTopK hspread.1
  have hout0ne : ∀ c ∈ spread.take targetTopK, c.id ≠ none :=
    fun c hc => hspread.2 c (List.take_subset _ _ hc)
  have hout1 := deepScanAugment_nodup r retrievalQuery (spread.take targetTopK) targetTopK
    hout0nd hout0ne
  apply nodup_map_take
  refine ite_nodup_ids ?_ hout1.1
  exact (crossInjectLoop_inv targetTopK _ _ out1 _ hout1.1 hout1.2).1

/-- The witness corpus is coherently named: the only chunk is chunkA of file
f, there are no collaborators, and the base retriever returns nothing. -/
theorem corpusCoherentW : CorpusCoherent fnW rOneDoc emptyRetrieve := by
  refine ⟨?_, ?_, ?_, ?_, ?_, ?_, ?_, ?_⟩
  · intro c hc k hk
    have hc2 : c = chunkA := by simpa [rOneDoc] using hc
    subst hc2
    rfl
  · intro d hd c hc k hk
    have hd2 : d = docF := by simpa [rOneDoc] using hd
    subst hd2
    have hc2 : c = chunkA := by simpa [docF] using hc
    subst hc2
    rfl
  · intro m hm
    exact Option.noConfusion hm
  · intro q k o l hl c hc
    have hl2 : ([] : List Chunk) = l := by
      injection hl
    rw [← hl2] at hc
    exact absurd hc (by simp)
  · intro m hm
    exact Option.noConfusion hm
  · intro p hp
    exact Option.noConfusion hp
  · intro s hs
    exact Option.noConfusion hs
  · intro d hd
    exact Option.noConfusion hd

/-- C4: over any coherently named corpus (chunk ids determine filenames, the
base retriever returns corpus chunks, and the duck-typed selection
collaborators select from their inputs), a successful patchedRetrieve never
returns two chunks with the same id. -/
theorem patched_retrieve_nodup_ids (fn : String → Option String) (r : Retriever)
    (origF : BaseRetrieve) (H : CorpusCoherent fn r origF) (query : String)
    (topK : Option Nat) (options : RetrievalOptions) (out : List Chunk)
    (hout : patchedRetrieve r query topK options origF = Except.ok out) :
    (out.map Chunk.id).Nodup := by
  rw [patchedRetrieve] at hout
  split at hout
  · have h : ([] : List Chunk) = out := by
      injection hout
    rw [← h]
    simp
  · split at hout
    · exact Except.noConfusion hout
    · rename_i base hbasecall
      have h : patchedPipeline r query topK options origF base = out := by
        injection hout
      rw [← h, patchedPipeline]
      exact patchedTail_nodup fn r origF H query _ _ _ options base
        (H.baseOk _ _ _ base hbasecall)

/-- Witness for C4: on the one-document witness corpus the patched retrieve
succeeds with the single chunk, whose id list is duplicate-free by the claim
instance. -/
theorem patched_retrieve_nodup_ids_witness :
    patchedRetrieve rOneDoc "q" none {} emptyRetrieve = Except.ok [chunkA] ∧
      (([chunkA].map Chunk.id).Nodup) :=
  ⟨by rfl, patched_retrieve_nodup_ids fnW rOneDoc emptyRetrieve corpusCoherentW
    "q" none {} [chunkA] (by rfl)⟩

/-- Witness for C10: the id-less chunk is dropped from a merged dedup, from
anchor sampling over a real corpus, and from bridge expansion. -/
theorem uniqBy_drops_keyless_witness :
    chunkNoId.id = none ∧
      chunkNoId ∉ uniqBy ([chunkNoId] ++ [chunkA]) Chunk.id ∧
      chunkNoId ∉ getDocumentAnchors rOneDoc "q" {} ∧
      chunkNoId ∉ expandImplicitConceptLinks rBridge [chunkA] "q" 5 :=
  ⟨rfl, uniqBy_drops_keyless.2.2.2 [chunkNoId] [chunkA] chunkNoId rfl,
    uniqBy_drops_keyless.2.1 rOneDoc "q" {} chunkNoId rfl,
    uniqBy_drops_keyless.2.2.1 rBridge [chunkA] "q" 5 chunkNoId rfl⟩

end SuperBrain

